import Mathlib

/-!
Verification of the chess rules engine (`chess_piece.py`, `chess_board.py`,
`chess_move.py`, `chess_exception.py`, `chess_notation.py`).

The embedding below is a direct functional translation of the Python source.
Squares are keyed by `(fileOrd, rank) : Int × Int`, where `fileOrd` is the
character ordinal of the file letter (97 = 'a' .. 104 = 'h') and `rank` runs
from 1 to 8, matching the Python code's use of `ord(file)` and integer ranks.
A board holds an occupancy map, the active color, the full-move counter and
the history of snapshots, matching `ChessBoard.__init__`.

Python exceptions are modelled with `Except`: the engine's `Chess*Exception`
hierarchy becomes the `Err` inductive below, together with the Python-level
`ValueError` / `KeyError` / `AttributeError` that the source can also raise.
In-place mutation of the board/pieces becomes explicit state passing.
-/

namespace Chess

/-- Piece color, `'light'` / `'dark'` in the source. -/
inductive PColor where
  | light
  | dark
deriving DecidableEq, Repr

/-- The opposite color: the source writes this as
`'light' if c == 'dark' else 'dark'`. -/
def PColor.other : PColor → PColor
  | .light => .dark
  | .dark => .light

/-- The six piece kinds (the `ChessPiece` subclasses). -/
inductive PKind where
  | pawn
  | rook
  | knight
  | bishop
  | queen
  | king
deriving DecidableEq, Repr

/-- A chess piece: its kind, color, and the mutable per-instance flags.
In the source only Pawn/Rook/King have `has_moved`, only Pawn has
`vulnerable`, and only King has `has_been_in_check`; all accesses that
Python would refuse with `AttributeError` are modelled as errors below, so
carrying all flags on this structure is observationally faithful. -/
structure Piece where
  kind : PKind
  color : PColor
  hasMoved : Bool := false
  vulnerable : Bool := false
  hasBeenInCheck : Bool := false
deriving DecidableEq, Repr

/-- `Pawn.direction`: `1 if self.color == 'light' else -1`, fixed at
construction from the color. -/
def Piece.direction (p : Piece) : Int :=
  if p.color = .light then 1 else -1

/-- `get_move_pattern` of each subclass, in source order. -/
def Piece.getMovePattern (p : Piece) : List (Int × Int) :=
  match p.kind with
  | .pawn =>
      if p.hasMoved then [(0, p.direction)]
      else [(0, p.direction), (0, 2 * p.direction)]
  | .rook => [(1, 0), (-1, 0), (0, 1), (0, -1)]
  | .knight => [(1, 2), (-1, 2), (1, -2), (-1, -2), (-2, 1), (2, 1), (-2, -1), (2, -1)]
  | .bishop => [(1, 1), (-1, 1), (-1, -1), (1, -1)]
  | .queen => [(1, 0), (-1, 0), (0, 1), (0, -1), (1, 1), (-1, 1), (-1, -1), (1, -1)]
  | .king => [(1, 0), (-1, 0), (0, 1), (0, -1), (1, 1), (-1, 1), (-1, -1), (1, -1)]

/-- `get_capture_pattern`: the Pawn override (two forward diagonals plus the
two lateral en-passant vectors); every other kind falls back to the move
pattern. -/
def Piece.getCapturePattern (p : Piece) : List (Int × Int) :=
  match p.kind with
  | .pawn =>
      [(-1, p.direction), (1, p.direction), (-1, 0), (1, 0)]
  | _ => p.getMovePattern

/-- `is_sliding_piece`: overridden to `True` by Rook, Bishop and Queen. -/
def Piece.isSlidingPiece (p : Piece) : Bool :=
  match p.kind with
  | .rook | .bishop | .queen => true
  | _ => false

/-- Errors: the `Chess*Exception` leaf classes that the source actually
raises, plus the Python built-in exceptions reachable from the translated
code (`ValueError` from `Square.place`/`remove`/`move_piece`/key checks,
`KeyError` from raw `self.squares[...]` dictionary access on an off-board
key, `AttributeError` from flag methods on pieces lacking the attribute and
from the undefined `King.raise_check_flag`). -/
inductive Err where
  | cannotMoveToOriginSquare
  | cannotMoveFromEmptySquare
  | cannotMoveOutOfTurn
  | cannotMoveIntoOccupiedSquare
  | cannotMoveOutsideMovementPattern
  | cannotCaptureIntoEmptySquare
  | cannotCaptureFriendlyPiece
  | cannotCaptureOutsideCapturePattern
  | cannotCastleWithNonKing
  | cannotCastleIfKingHasMoved
  | cannotCastleIfKingHasBeenInCheck
  | cannotCastleOutOfCheck
  | cannotCastleIntoInvalidDestination
  | cannotCastleThroughOccupiedSquares
  | cannotCastleWithoutRook
  | cannotCastleIfRookHasMoved
  | cannotCastleIntoCheck
  | valueError
  | keyError
  | attributeError
deriving DecidableEq, Repr

/-- A square key: (file ordinal 97..104, rank 1..8), i.e. `'a1'`..`'h8'`. -/
abbrev Pos := Int × Int

/-- A key is on the board, i.e. belongs to `ChessBoard.squares`. -/
def validPos (p : Pos) : Prop :=
  97 ≤ p.1 ∧ p.1 ≤ 104 ∧ 1 ≤ p.2 ∧ p.2 ≤ 8

instance : DecidablePred validPos := fun p => by
  unfold validPos; infer_instance

/-- The file ordinals `ord('a')..ord('h')`, in the order the squares
dictionary is built (`for file in 'abcdefgh'`). -/
def fileOrds : List Int := [97, 98, 99, 100, 101, 102, 103, 104]

/-- The ranks `1..8`, in dictionary construction order
(`for rank in range(1, 9)`). -/
def rankList : List Int := [1, 2, 3, 4, 5, 6, 7, 8]

/-- All 64 square keys in the iteration order of `self.squares`
(Python dict preserves insertion order: a1, a2, ..., a8, b1, ..., h8). -/
def squaresList : List Pos :=
  fileOrds.flatMap (fun f => rankList.map (fun r => (f, r)))

/-- `ChessBoard`: occupancy of the 64 squares (`None` = empty), the active
color `turn`, the counter `turns`, and the history `game_states`, an
insertion-ordered map from `(turns, turn)` to board snapshots.  The
occupancy map is total on `Int × Int`; the translated code only ever reads
it at keys it has bounds-checked, exactly as the source only indexes
`self.squares` at valid keys (the few unguarded raw accesses are modelled
with explicit `keyError` branches). -/
inductive Board where
  | mk (squares : Pos → Option Piece) (turn : PColor) (turns : Nat)
      (gameStates : List ((Nat × PColor) × Board)) : Board

/-- Occupancy map of the board. -/
def Board.squares : Board → (Pos → Option Piece)
  | .mk s _ _ _ => s

/-- Active color. -/
def Board.turn : Board → PColor
  | .mk _ t _ _ => t

/-- Full-move counter. -/
def Board.turns : Board → Nat
  | .mk _ _ n _ => n

/-- History of snapshots keyed by `(turns, turn)`. -/
def Board.gameStates : Board → List ((Nat × PColor) × Board)
  | .mk _ _ _ g => g

/-- Replace the occupant of one square (the result of a single in-place
`place`/`remove`/flag mutation on that square's piece). -/
def Board.setSquare (b : Board) (p : Pos) (v : Option Piece) : Board :=
  .mk (fun q => if q = p then v else b.squares q) b.turn b.turns b.gameStates

/-- Replace the active color. -/
def Board.setTurn (b : Board) (t : PColor) : Board :=
  .mk b.squares t b.turns b.gameStates

/-- Replace the move counter. -/
def Board.setTurns (b : Board) (n : Nat) : Board :=
  .mk b.squares b.turn n b.gameStates

/-- Replace the history map. -/
def Board.setGameStates (b : Board) (g : List ((Nat × PColor) × Board)) : Board :=
  .mk b.squares b.turn b.turns g

/-- Build a test board from a placement list (used only in concrete
theorems below, the way the tests call `place` / `place_piece`). -/
def mkBoard (l : List (Pos × Piece)) (t : PColor) : Board :=
  .mk (fun pos => (l.find? (fun e => decide (e.1 = pos))).map (·.2)) t 0 []

/-- The direction reduction in `is_in_check_from` /
`_is_sliding_path_clear`: `0 if off == 0 else (1 if off > 0 else -1)`. -/
def dirOf (off : Int) : Int :=
  if off = 0 then 0 else if off > 0 then 1 else -1

/-- The body of the `while` loop in `_is_sliding_path_clear`: starting at
`cur` (the square after the attacking piece), step by `(fs, rs)` while the
current square differs from `tgt` and stays on the board, returning `False`
as soon as an occupied square is found.  The source's `while` loop always
terminates within 8 iterations (the step is a nonzero unit vector, so the
bounds window is left after at most 8 steps); it is written here with a
fuel parameter that the caller sets large enough to be unreachable. -/
def slidingWalk (b : Board) (tgt : Pos) (fs rs : Int) : Nat → Pos → Bool
  | 0, _ => true
  | n + 1, cur =>
      if (cur.1 ≠ tgt.1 ∨ cur.2 ≠ tgt.2) ∧
          (0 < cur.2 ∧ cur.2 < 9) ∧ (96 < cur.1 ∧ cur.1 < 105) then
        if (b.squares cur).isSome then false
        else slidingWalk b tgt fs rs n (cur.1 + fs, cur.2 + rs)
      else true

/-- `ChessBoard._is_sliding_path_clear`: reject mis-aligned "diagonals"
(both offsets nonzero with different absolute values), then walk the
intervening squares. -/
def isSlidingPathClear (b : Board) (frm tgt : Pos) (fo ro : Int) : Bool :=
  let fs := dirOf fo
  let rs := dirOf ro
  if fo ≠ 0 ∧ ro ≠ 0 ∧ fo.natAbs ≠ ro.natAbs then false
  else slidingWalk b tgt fs rs 32 (frm.1 + fs, frm.2 + rs)

/-- The per-piece body of the loop in `ChessBoard.is_in_check_from`: does
the piece `p` sitting on `sq` attack `tgt`?  Pawns use their exact capture
pattern; other non-sliding pieces need the exact offset in the pattern;
sliding pieces need the unit direction in the pattern and a clear path. -/
def pieceAttacks (b : Board) (sq : Pos) (p : Piece) (tgt : Pos) : Bool :=
  let fo := tgt.1 - sq.1
  let ro := tgt.2 - sq.2
  if fo = 0 ∧ ro = 0 then false
  else
    let fd := dirOf fo
    let rd := dirOf ro
    if p.kind = .pawn then decide ((fo, ro) ∈ p.getCapturePattern)
    else if (fd, rd) ∈ p.getCapturePattern then
      if ¬ p.isSlidingPiece then decide ((fo, ro) ∈ p.getCapturePattern)
      else isSlidingPathClear b sq tgt fo ro
    else false

/-- `ChessBoard.is_in_check_from`: scan every square; an occupied square
whose piece has the attacking color and attacks the target makes the whole
call return `True`. -/
def isInCheckFrom (b : Board) (tgt : Pos) (attackingColor : PColor) : Bool :=
  squaresList.any (fun sq =>
    match b.squares sq with
    | none => false
    | some p => p.color = attackingColor && pieceAttacks b sq p tgt)

/-- `Square.remove`: take the occupant off a square, `ValueError` if the
square is empty. -/
def squareRemove (b : Board) (pos : Pos) : Except Err (Piece × Board) :=
  match b.squares pos with
  | none => .error .valueError
  | some p => .ok (p, b.setSquare pos none)

/-- `Square.place`: put a piece on a square, `ValueError` if occupied. -/
def squarePlace (b : Board) (pos : Pos) (p : Piece) : Except Err Board :=
  match b.squares pos with
  | some _ => .error .valueError
  | none => .ok (b.setSquare pos (some p))

/-- `ChessBoard.remove_piece`: key check, then remove (both failures are
`ValueError` in the source). -/
def removePieceB (b : Board) (pos : Pos) : Except Err (Piece × Board) :=
  if ¬ validPos pos then .error .valueError
  else squareRemove b pos

/-- `ChessBoard.place_piece`: key check, then `Square.place`. -/
def placePieceB (b : Board) (pos : Pos) (p : Piece) : Except Err Board :=
  if ¬ validPos pos then .error .valueError
  else squarePlace b pos p

/-- `ChessBoard.move_piece`: the raw occupant transfer with its
`ValueError` guards (invalid keys, same square, empty origin, occupied
destination); no rule checking. -/
def movePieceB (b : Board) (frm tgt : Pos) : Except Err Board :=
  if ¬ (validPos frm ∧ validPos tgt) then .error .valueError
  else if frm = tgt then .error .valueError
  else
    match b.squares frm with
    | none => .error .valueError
    | some p =>
        match b.squares tgt with
        | some _ => .error .valueError
        | none => .ok ((b.setSquare frm none).setSquare tgt (some p))

/-- The final scan of `is_discovered_check`: is any King of the moving
player attacked by the passive player on the hypothetical board? -/
def kingScan (b2 : Board) (movingPlayer passivePlayer : PColor) : Bool :=
  squaresList.any fun k =>
    match b2.squares k with
    | some p => p.kind = .king && p.color = movingPlayer &&
        isInCheckFrom b2 k passivePlayer
    | none => false

/-- The preparation phase of `is_discovered_check`: for a capture, remove
the captured piece, shifting the landing square behind the target for a
lateral pawn capture (whose `hypothetical[...]` lookup raises `ValueError`
on an off-board key via `__getitem__`); for a plain move, nothing.
Returns the prepared hypothetical board and the square the mover will
land on. -/
def dcPrep (b : Board) (frm tgt : Pos) (isCapture : Bool) :
    Except Err (Board × Pos) :=
  if isCapture then
    if frm.2 = tgt.2 ∧ ((b.squares frm).any fun p => p.kind == .pawn) = true then
      match squareRemove b tgt with
      | .error e => .error e
      | .ok (_, b') =>
          let dir := (match b.squares frm with
            | some p => p.direction
            | none => 0)
          let toKey : Pos := (tgt.1, frm.2 + dir)
          if ¬ validPos toKey then .error .valueError
          else .ok (b', toKey)
    else
      match squareRemove b tgt with
      | .error e => .error e
      | .ok (_, b') => .ok (b', tgt)
  else .ok (b, tgt)

/-- `ChessBoard.is_discovered_check`: simulate the move on a deep copy
(value copy here) via `dcPrep` and `move_piece`, then scan for any King of
the moving player (`self.turn`) attacked by the passive player. -/
def isDiscoveredCheck (b : Board) (frm tgt : Pos) (isCapture : Bool) :
    Except Err Bool :=
  match dcPrep b frm tgt isCapture with
  | .error e => .error e
  | .ok (b1, tgt') =>
      match movePieceB b1 frm tgt' with
      | .error e => .error e
      | .ok b2 => .ok (kingScan b2 b.turn b.turn.other)

/-- One direction of the candidate-collection `while` loop in
`get_legal_moves`: step from `cur` by `(fd, rd)`, stopping at the board
edge or the first occupied square (which is not collected), and after one
step for non-sliding pieces.  Fuel as in `slidingWalk`. -/
def moveRay (b : Board) (fd rd : Int) (sliding : Bool) :
    Nat → Pos → List Pos
  | 0, _ => []
  | n + 1, cur =>
      let nxt : Pos := (cur.1 + fd, cur.2 + rd)
      if ¬ (97 ≤ nxt.1 ∧ nxt.1 ≤ 104 ∧ 1 ≤ nxt.2 ∧ nxt.2 ≤ 8) then []
      else if (b.squares nxt).isSome then []
      else if ¬ sliding then [nxt]
      else nxt :: moveRay b fd rd sliding n nxt

/-- `ChessBoard.get_legal_moves`: collect the movement-pattern candidates,
strip duplicates (`list(set(...))`, modelled by `List.dedup`, which is
membership-equivalent), then drop every candidate that would be a
discovered check. -/
def getLegalMoves (b : Board) (frm : Pos) : Except Err (List Pos) :=
  if ¬ validPos frm then .error .valueError
  else
    match b.squares frm with
    | none => .ok []
    | some p => do
        let possible := p.getMovePattern.foldl
          (fun acc v => acc ++ moveRay b v.1 v.2 p.isSlidingPiece 32 frm) []
        let possible := possible.dedup
        let legal ← possible.foldlM (fun acc m => do
          let dc ← isDiscoveredCheck b frm m false
          pure (if ¬ dc then acc ++ [m] else acc)) []
        pure legal.dedup

/-- The sliding block of `get_legal_captures` for one capture direction:
walk from `frm + v` while on the board; the first occupied square ends the
walk and is collected only when it holds an enemy piece. -/
def captureRay (b : Board) (myColor : PColor) (fd rd : Int) :
    Nat → Pos → List Pos
  | 0, _ => []
  | n + 1, cur =>
      if ¬ (97 ≤ cur.1 ∧ cur.1 ≤ 104 ∧ 1 ≤ cur.2 ∧ cur.2 ≤ 8) then []
      else
        match b.squares cur with
        | some q => if q.color ≠ myColor then [cur] else []
        | none => captureRay b myColor fd rd n (cur.1 + fd, cur.2 + rd)

/-- The single-step block of `get_legal_captures` for one capture vector:
the bounds check, the enemy-occupancy check, and for lateral pawn-on-pawn
vectors the en-passant vulnerability and landing-square tests (the raw
`self.squares[...]` lookup of the landing square raises `KeyError` on an
off-board key). -/
def captureFirst (b : Board) (frm : Pos) (p : Piece) (v : Int × Int) :
    Except Err (List Pos) :=
  let tgt : Pos := (frm.1 + v.1, frm.2 + v.2)
  if 97 ≤ tgt.1 ∧ tgt.1 ≤ 104 ∧ 1 ≤ tgt.2 ∧ tgt.2 ≤ 8 then
    match b.squares tgt with
    | some q =>
        if q.color ≠ p.color then
          if p.kind = .pawn ∧ q.kind = .pawn ∧ (v = (-1, 0) ∨ v = (1, 0)) then
            if q.vulnerable then
              let finalSq : Pos := (tgt.1, tgt.2 + p.direction)
              if ¬ validPos finalSq then .error .keyError
              else if (b.squares finalSq).isSome then .ok []
              else .ok [tgt]
            else .ok []
          else .ok [tgt]
        else .ok []
    | none => .ok []
  else .ok []

/-- The contribution of a single capture-pattern vector in
`get_legal_captures`: the single-step block followed by the sliding-ray
block for sliding pieces. -/
def captureContrib (b : Board) (frm : Pos) (p : Piece) (v : Int × Int) :
    Except Err (List Pos) :=
  match captureFirst b frm p v with
  | .error e => .error e
  | .ok fs =>
      .ok (fs ++ (if p.isSlidingPiece then
        captureRay b p.color v.1 v.2 32 (frm.1 + v.1, frm.2 + v.2)
      else []))

/-- `ChessBoard.get_legal_captures`: per-vector collection, duplicate
stripping, then the discovered-check filter (with `is_capture=True`). -/
def getLegalCaptures (b : Board) (frm : Pos) : Except Err (List Pos) :=
  if ¬ validPos frm then .error .valueError
  else
    match b.squares frm with
    | none => .ok []
    | some p => do
        let possible ← p.getCapturePattern.foldlM (fun acc v => do
          let c ← captureContrib b frm p v
          pure (acc ++ c)) []
        let possible := possible.dedup
        let legal ← possible.foldlM (fun acc m => do
          let dc ← isDiscoveredCheck b frm m true
          pure (if ¬ dc then acc ++ [m] else acc)) []
        pure legal.dedup

/-- `ChessPiece.raise_moved_flag`: only Pawn, Rook and King instances have
a `has_moved` attribute; on any other piece Python raises
`AttributeError`. -/
def raiseMovedFlag (p : Piece) : Except Err Piece :=
  match p.kind with
  | .pawn | .rook | .king => .ok { p with hasMoved := true }
  | _ => .error .attributeError

/-- `King.raise_check_flag` as called by `ChessBoard.end_turn`.  No such
method is defined anywhere in `chess_piece.py` (the base class only
defines `raise_moved_flag`, `raise_passant_flag` and
`lower_passant_flag`), so the call raises `AttributeError` at runtime. -/
def raiseCheckFlag (_ : Piece) : Except Err Piece :=
  .error .attributeError

/-- The body of the per-square loop in `ChessBoard.end_turn`: lower the
en-passant flag of every pawn not belonging to the side that just moved,
and for every opposing king standing in check call the (missing)
`raise_check_flag`. -/
def endTurnStep (bb : Board) (k : Pos) : Except Err Board :=
  match bb.squares k with
  | some p =>
      if p.kind = .pawn ∧ p.color ≠ bb.turn then
        pure (bb.setSquare k (some { p with vulnerable := false }))
      else if p.kind = .king ∧ p.color ≠ bb.turn then
        if isInCheckFrom bb k bb.turn then do
          let p' ← raiseCheckFlag p
          pure (bb.setSquare k (some p'))
        else pure bb
      else pure bb
  | none => pure bb

/-- `ChessBoard.end_turn`: the flag/check loop over all squares, the
counter increment at the end of light's half-turn, the snapshot stored
under `(turns, turn)` (a deep copy of the board as it stands, whose own
`game_states` is the pre-insertion map), and the turn flip. -/
def endTurn (b : Board) : Except Err Board := do
  let b1 ← squaresList.foldlM endTurnStep b
  let newTurns := if b1.turn = .light then b1.turns + 1 else b1.turns
  let b2 := b1.setTurns newTurns
  let snap := b2
  let b3 := b2.setGameStates (((newTurns, b2.turn), snap) :: b2.gameStates)
  pure (b3.setTurn b3.turn.other)

/-- `ChessMetaMove.validate_origin_constraints`: same-square, empty
origin, out-of-turn — each raising its specific exception.  Two squares of
one board compare equal exactly when they have the same key, so the
`self.move_from['square'] == self.move_to['square']` test is the key
comparison. -/
def validateOriginConstraints (b : Board) (frm tgt : Pos) : Except Err Bool :=
  if frm = tgt then .error .cannotMoveToOriginSquare
  else
    match b.squares frm with
    | none => .error .cannotMoveFromEmptySquare
    | some p =>
        if p.color ≠ b.turn then .error .cannotMoveOutOfTurn
        else .ok true

/-- `ChessMetaMove.validate_check_rules`: a King may not move onto a
square attacked by the passive player.  Note that this predicate returns a
bare boolean and raises nothing (the `ChessCannotMoveIntoCheckException`
class exists in `chess_exception.py` but is never raised). -/
def validateCheckRules (b : Board) (frm tgt : Pos) : Bool :=
  match b.squares frm with
  | some p =>
      if p.kind = .king then ¬ isInCheckFrom b tgt b.turn.other
      else true
  | none => true

/-- `ChessMove.validate_other_constraints`: the destination must be
empty. -/
def validateMoveOther (b : Board) (tgt : Pos) : Except Err Bool :=
  match b.squares tgt with
  | some _ => .error .cannotMoveIntoOccupiedSquare
  | none => .ok true

/-- `ChessMove.validate_piece_movement`: the destination must be one of
the legal moves of the origin square. -/
def validateMovePieceMovement (b : Board) (frm tgt : Pos) : Except Err Bool := do
  let lm ← getLegalMoves b frm
  if tgt ∈ lm then pure true
  else throw .cannotMoveOutsideMovementPattern

/-- `ChessMetaMove.validate` for `ChessMove`: the short-circuiting
`origin and other and piece_movement and check_rules` conjunction, with
each predicate's exception propagating to the caller. -/
def validateMove (b : Board) (frm tgt : Pos) : Except Err Bool := do
  let a ← validateOriginConstraints b frm tgt
  if a then do
    let c ← validateMoveOther b tgt
    if c then do
      let d ← validateMovePieceMovement b frm tgt
      if d then pure (validateCheckRules b frm tgt)
      else pure false
    else pure false
  else pure false

/-- `ChessCapture.validate_other_constraints`: destination occupied, not
by a friend.  (`self.piece` is the origin occupant; if the origin is empty
the color comparison dereferences `None` — `AttributeError` — though the
pipeline's origin check fires first.) -/
def validateCaptureOther (b : Board) (frm tgt : Pos) : Except Err Bool :=
  match b.squares tgt with
  | none => .error .cannotCaptureIntoEmptySquare
  | some q =>
      match b.squares frm with
      | none => .error .attributeError
      | some p =>
          if q.color = p.color then .error .cannotCaptureFriendlyPiece
          else .ok true

/-- `ChessCapture.validate_piece_movement`: the destination must be one of
the legal captures of the origin square. -/
def validateCapturePieceMovement (b : Board) (frm tgt : Pos) :
    Except Err Bool := do
  let lc ← getLegalCaptures b frm
  if tgt ∈ lc then pure true
  else throw .cannotCaptureOutsideCapturePattern

/-- `ChessMetaMove.validate` for `ChessCapture`. -/
def validateCapture (b : Board) (frm tgt : Pos) : Except Err Bool := do
  let a ← validateOriginConstraints b frm tgt
  if a then do
    let c ← validateCaptureOther b frm tgt
    if c then do
      let d ← validateCapturePieceMovement b frm tgt
      if d then pure (validateCheckRules b frm tgt)
      else pure false
    else pure false
  else pure false

/-- `ChessCastle.validate_other_constraints`, light and dark branches.
An empty origin makes the non-King error message dereference `None`
(`AttributeError`); the kingside branches test only f1/f8 for occupancy
while the queenside branches test b/c/d. -/
def validateCastleOther (b : Board) (frm tgt : Pos) : Except Err Bool := do
  match b.squares frm with
  | none => throw .attributeError
  | some p =>
      if p.kind ≠ .king then throw .cannotCastleWithNonKing
      else if p.hasMoved then throw .cannotCastleIfKingHasMoved
      else if p.hasBeenInCheck then throw .cannotCastleIfKingHasBeenInCheck
      else if isInCheckFrom b frm b.turn.other then throw .cannotCastleOutOfCheck
      else do
        let rookKey : Pos ←
          if b.turn = .light then
            if ¬ (tgt = (103, 1) ∨ tgt = (99, 1)) then
              throw .cannotCastleIntoInvalidDestination
            else if frm ≠ (101, 1) then
              throw .cannotCastleIntoInvalidDestination
            else if tgt = (103, 1) then
              if (b.squares (102, 1)).isSome then
                throw .cannotCastleThroughOccupiedSquares
              else pure ((104 : Int), (1 : Int))
            else
              if (b.squares (98, 1)).isSome ∨ (b.squares (99, 1)).isSome ∨
                  (b.squares (100, 1)).isSome then
                throw .cannotCastleThroughOccupiedSquares
              else pure ((97 : Int), (1 : Int))
          else
            if ¬ (tgt = (103, 8) ∨ tgt = (99, 8)) then
              throw .cannotCastleIntoInvalidDestination
            else if frm ≠ (101, 8) then
              throw .cannotCastleIntoInvalidDestination
            else if tgt = (103, 8) then
              if (b.squares (102, 8)).isSome then
                throw .cannotCastleThroughOccupiedSquares
              else pure ((104 : Int), (8 : Int))
            else
              if (b.squares (98, 8)).isSome ∨ (b.squares (99, 8)).isSome ∨
                  (b.squares (100, 8)).isSome then
                throw .cannotCastleThroughOccupiedSquares
              else pure ((97 : Int), (8 : Int))
        match b.squares rookKey with
        | some r =>
            if r.kind ≠ .rook then throw .cannotCastleWithoutRook
            else if r.hasMoved then throw .cannotCastleIfRookHasMoved
            else do
              let path : List Pos :=
                if tgt = (103, 1) then [(102, 1), (103, 1)]
                else if tgt = (99, 1) then [(100, 1), (99, 1)]
                else if tgt = (103, 8) then [(102, 8), (103, 8)]
                else [(100, 8), (99, 8)]
              for sq in path do
                if isInCheckFrom b sq b.turn.other then
                  throw .cannotCastleIntoCheck
              pure true
        | none => throw .cannotCastleWithoutRook

/-- `ChessMetaMove.validate` for `ChessCastle` (`validate_piece_movement`
is a constant `True` for castles). -/
def validateCastle (b : Board) (frm tgt : Pos) : Except Err Bool := do
  let a ← validateOriginConstraints b frm tgt
  if a then do
    let c ← validateCastleOther b frm tgt
    if c then pure (validateCheckRules b frm tgt)
    else pure false
  else pure false

/-- `ChessMove.execute`, with the board state threaded explicitly: the
result is the board as Python leaves it (possibly partially mutated when
an exception interrupts the method) together with the propagated
exception, if any.  On a validation exception nothing has been touched;
on `validate()` returning `False` the method silently does nothing. -/
def executeMove (b : Board) (frm tgt : Pos) : Board × Option Err :=
  match validateMove b frm tgt with
  | .error e => (b, some e)
  | .ok false => (b, none)
  | .ok true =>
      match b.squares frm with
      | none => (b, some .valueError)  -- unreachable: validation needs an occupant
      | some p =>
          -- raise the en-passant flag on a pawn advancing two ranks
          let b1 := if p.kind = .pawn ∧ (frm.2 - tgt.2).natAbs = 2 then
              b.setSquare frm (some { p with vulnerable := true })
            else b
          match movePieceB b1 frm tgt with
          | .error e => (b1, some e)
          | .ok b2 =>
              -- flag_movement for Pawn/King/Rook (the piece now sits on tgt)
              let b3 := if p.kind = .pawn ∨ p.kind = .king ∨ p.kind = .rook then
                  match b2.squares tgt with
                  | some q => b2.setSquare tgt (some { q with hasMoved := true })
                  | none => b2
                else b2
              match endTurn b3 with
              | .error e => (b3, some e)
              | .ok b4 => (b4, none)

/-- `ChessCapture.validate_is_successful_en_passant`: the four boolean
tests in source order; the landing-square test indexes `self.board.squares`
directly, so an off-board landing key is a `KeyError`. -/
def validateIsSuccessfulEnPassant (b : Board) (frm tgt : Pos)
    (capturing captured : Piece) : Except Err Bool :=
  if ¬ (capturing.kind = .pawn ∧ captured.kind = .pawn) then .ok false
  else if ¬ ((frm.1 - tgt.1).natAbs = 1 ∧ frm.2 = tgt.2) then .ok false
  else if ¬ captured.vulnerable then .ok false
  else
    let finalSq : Pos := (tgt.1, tgt.2 + capturing.direction)
    if ¬ validPos finalSq then .error .keyError
    else if (b.squares finalSq).isSome then .ok false
    else .ok true

/-- `ChessCapture.execute`: the en-passant branch (remove the captured
pawn from the *target* square and land the capturer behind it) or the
regular branch (remove the occupant of the destination, move, raise the
mover's `has_moved` — an `AttributeError` for Knight/Bishop/Queen, whose
classes lack the attribute — then `end_turn`).  The returned captured
piece is irrelevant to the claims and omitted. -/
def executeCapture (b : Board) (frm tgt : Pos) : Board × Option Err :=
  match validateCapture b frm tgt with
  | .error e => (b, some e)
  | .ok false => (b, none)
  | .ok true =>
      match b.squares frm, b.squares tgt with
      | some cp, some cq =>
          if cp.kind = .pawn ∧ cq.kind = .pawn ∧ frm.2 = tgt.2 then
            match validateIsSuccessfulEnPassant b frm tgt cp cq with
            | .error e => (b, some e)
            | .ok false =>
                -- the outer `if` falls through with no board change
                (match endTurn b with
                 | .error e => (b, some e)
                 | .ok b' => (b', none))
            | .ok true =>
                match removePieceB b tgt with
                | .error e => (b, some e)
                | .ok (_, b1) =>
                    let finalSq : Pos := (tgt.1, tgt.2 + cp.direction)
                    if ¬ validPos finalSq then (b1, some .keyError)
                    else
                      match movePieceB b1 frm finalSq with
                      | .error e => (b1, some e)
                      | .ok b2 =>
                          let b3 := match b2.squares finalSq with
                            | some q => b2.setSquare finalSq
                                (some { q with hasMoved := true })
                            | none => b2
                          match endTurn b3 with
                          | .error e => (b3, some e)
                          | .ok b4 => (b4, none)
          else
            match removePieceB b tgt with
            | .error e => (b, some e)
            | .ok (_, b1) =>
                match movePieceB b1 frm tgt with
                | .error e => (b1, some e)
                | .ok b2 =>
                    match raiseMovedFlag cp with
                    | .error e => (b2, some e)
                    | .ok _ =>
                        let b3 := match b2.squares tgt with
                          | some q => b2.setSquare tgt
                              (some { q with hasMoved := true })
                          | none => b2
                        match endTurn b3 with
                        | .error e => (b3, some e)
                        | .ok b4 => (b4, none)
      | _, _ => (b, some .valueError)  -- unreachable after a true validation

/-- `ChessCastle.execute`: remove the King, pick the Rook's origin and
destination from the King's color and the target square, remove and
re-place both pieces (each `place` can raise `ValueError` on an occupied
square), flag both as moved, and end the turn. -/
def executeCastle (b : Board) (frm tgt : Pos) : Board × Option Err :=
  match validateCastle b frm tgt with
  | .error e => (b, some e)
  | .ok false => (b, none)
  | .ok true =>
      match squareRemove b frm with
      | .error e => (b, some e)
      | .ok (king, b1) =>
          let rookKey : Pos := if king.color = .light then
              (if tgt = (103, 1) then ((104 : Int), (1 : Int)) else (97, 1))
            else
              (if tgt = (103, 8) then ((104 : Int), (8 : Int)) else (97, 8))
          let rookToKey : Pos := if king.color = .light then
              (if tgt = (103, 1) then ((102 : Int), (1 : Int)) else (100, 1))
            else
              (if tgt = (103, 8) then ((102 : Int), (8 : Int)) else (100, 8))
          match squareRemove b1 rookKey with
          | .error e => (b1, some e)
          | .ok (rook, b2) =>
              match placePieceB b2 tgt king with
              | .error e => (b2, some e)
              | .ok b3 =>
                  match placePieceB b3 rookToKey rook with
                  | .error e => (b3, some e)
                  | .ok b4 =>
                      let b5 := match b4.squares tgt with
                        | some q => b4.setSquare tgt (some { q with hasMoved := true })
                        | none => b4
                      let b6 := match b5.squares rookToKey with
                        | some q => b5.setSquare rookToKey (some { q with hasMoved := true })
                        | none => b5
                      match endTurn b6 with
                      | .error e => (b6, some e)
                      | .ok b7 => (b7, none)

/-- Observation helper: the exception (if any) escaping a fallible
board-returning operation. -/
def errOf : Except Err Board → Option Err
  | .error e => some e
  | .ok _ => none

/-- Concrete pieces used in the closed theorems below. -/
def pc (k : PKind) (c : PColor) : Piece := { kind := k, color := c }

instance {α β : Type} [DecidableEq α] [DecidableEq β] :
    DecidableEq (Except α β) := fun a b =>
  match a, b with
  | .error x, .error y =>
      decidable_of_iff (x = y) ⟨fun h => h ▸ rfl, fun h => Except.error.inj h⟩
  | .ok x, .ok y =>
      decidable_of_iff (x = y) ⟨fun h => h ▸ rfl, fun h => Except.ok.inj h⟩
  | .error _, .ok _ => isFalse (fun h => Except.noConfusion h)
  | .ok _, .error _ => isFalse (fun h => Except.noConfusion h)

/-- The kind/color view of a square's occupant: everything that attack
detection can observe about it. -/
def attackView : Option Piece → Option (PKind × PColor) :=
  Option.map (fun p => (p.kind, p.color))

/-- The pointwise effect of the flag loop in `end_turn` on one square's
occupant: pawns of the passive color get their en-passant flag lowered,
everything else is untouched (when the loop completes without error). -/
def pawnClear (t : PColor) : Option Piece → Option Piece
  | some p =>
      if p.kind = .pawn ∧ p.color ≠ t then some { p with vulnerable := false }
      else some p
  | none => none

/-- Python `str.split(sep)` for a one-character separator, on strings
modelled as `List Char` (so `'f4xg5'.split('x') = ['f4', 'g5']` and
`'x'.split('x') = ['', '']`). -/
def splitOnChar (sep : Char) : List Char → List (List Char)
  | [] => [[]]
  | c :: rest =>
      match splitOnChar sep rest with
      | h :: t => if c = sep then [] :: h :: t else (c :: h) :: t
      | [] => [[c]]

/-- Python `needle in haystack` prefix part: `haystack.startswith(needle)`. -/
def listIsPref : List Char → List Char → Bool
  | [], _ => true
  | _ :: _, [] => false
  | a :: n, c :: h => a = c && listIsPref n h

/-- Python substring membership `needle in haystack` for strings. -/
def listIsSub (n : List Char) : List Char → Bool
  | [] => n.isEmpty
  | c :: t => listIsPref n (c :: t) || listIsSub n t

/-- The square-key string of a position: file letter then rank digit,
`f'{file}{rank}'` with `file = chr(fileOrd)`. -/
def posToStr (p : Pos) : List Char :=
  [Char.ofNat p.1.toNat, Char.ofNat (p.2 + 48).toNat]

/-- Parse a two-character square string into a position key
(`ord(file)` and the rank digit). -/
def strToPos (s : List Char) : Pos :=
  match s with
  | [c1, c2] => ((c1.toNat : Int), (c2.toNat : Int) - 48)
  | _ => (0, 0)

/-- `key in self.board.squares`: exactly the 64 two-character square
strings are dictionary keys. -/
def strIsSquare (s : List Char) : Bool :=
  match s with
  | [_, _] => decide (validPos (strToPos s))
  | _ => false

/-- `ChessPiece.symbol` of each subclass (empty for pawns). -/
def symbolOf (k : PKind) : List Char :=
  match k with
  | .pawn => []
  | .rook => ['R']
  | .knight => ['N']
  | .bishop => ['B']
  | .queen => ['Q']
  | .king => ['K']

/-- `ChessNotationConverter._check_castling`: the four castling
source/target string pairs and their notations. -/
def checkCastlingStr (frm tgt : List Char) : Option (List Char) :=
  if frm = ['e', '1'] ∧ tgt = ['g', '1'] then some ['O', '-', 'O']
  else if frm = ['e', '1'] ∧ tgt = ['c', '1'] then some ['O', '-', 'O', '-', 'O']
  else if frm = ['e', '8'] ∧ tgt = ['g', '8'] then some ['O', '-', 'O']
  else if frm = ['e', '8'] ∧ tgt = ['c', '8'] then some ['O', '-', 'O', '-', 'O']
  else none

/-- `ChessNotationConverter._find_ambiguous_pieces`: other same-type
same-color pieces whose legal moves or captures contain the destination
(the legal-move computations can raise, which propagates). -/
def findAmbiguous (b : Board) (p : Piece) (frm tgtPos : Pos) :
    Except Err (List Pos) :=
  squaresList.foldlM (fun acc k =>
    if k = frm then pure acc
    else
      match b.squares k with
      | some q =>
          if q.kind = p.kind ∧ q.color = p.color then do
            let lm ← getLegalMoves b k
            let lc ← getLegalCaptures b k
            pure (if tgtPos ∈ lm ∨ tgtPos ∈ lc then acc ++ [k] else acc)
          else pure acc
      | none => pure acc) []

/-- `ChessNotationConverter._resolve_ambiguity`: file letter if the file
is unique, else rank digit if the rank is unique, else the full square. -/
def resolveAmbiguity (frm : Pos) (amb : List Pos) : List Char :=
  if amb.all (fun k => decide (k.1 ≠ frm.1)) then [Char.ofNat frm.1.toNat]
  else if amb.all (fun k => decide (k.2 ≠ frm.2)) then [Char.ofNat (frm.2 + 48).toNat]
  else posToStr frm

/-- `ChessNotationConverter._get_disambiguation`: pawn captures always get
the origin file; non-pawns get a minimal disambiguator when ambiguous. -/
def getDisambiguation (b : Board) (p : Piece) (frm tgtPos : Pos)
    (isCapture : Bool) : Except Err (List Char) :=
  if p.kind = PKind.pawn ∧ isCapture = true then .ok [Char.ofNat frm.1.toNat]
  else if p.kind ≠ PKind.pawn then
    match findAmbiguous b p frm tgtPos with
    | .error e => .error e
    | .ok amb => .ok (if amb ≠ [] then resolveAmbiguity frm amb else [])
  else .ok []

/-- The body of `long_to_algebraic` after input parsing: validate both
squares, look up the origin piece, take the castling shortcut for kings,
determine whether the move is actually a capture (including the pawn
diagonal-to-empty en-passant case), and assemble symbol, disambiguation,
capture marker and destination. -/
def buildAlgebraic (b : Board) (frm tgt : List Char) : Except Err (List Char) :=
  if strIsSquare frm = true ∧ strIsSquare tgt = true then
    match b.squares (strToPos frm) with
    | none => .error .valueError
    | some piece =>
        match (if piece.kind = PKind.king then checkCastlingStr frm tgt else none) with
        | some cs => .ok cs
        | none =>
            let isActual0 := (b.squares (strToPos tgt)).isSome
            let isActual := if piece.kind = PKind.pawn ∧ isActual0 = false ∧
                ((strToPos frm).1 - (strToPos tgt).1).natAbs = 1 then true
              else isActual0
            match getDisambiguation b piece (strToPos frm) (strToPos tgt) isActual with
            | .error e => .error e
            | .ok d =>
                .ok (symbolOf piece.kind ++ d ++ (if isActual = true then ['x'] else []) ++ tgt)
  else .error .valueError

/-- The input cleaning and parsing at the top of `long_to_algebraic`:
strip spaces, lowercase, then split either the extended `'f4xg5'` form on
`'x'` or the four-character `'e2e4'` form in half. -/
def parseLong (s : List Char) : Except Err (List Char × List Char) :=
  let clean := (s.filter (fun c => decide (c ≠ ' '))).map Char.toLower
  if 'x' ∈ clean then
    match splitOnChar 'x' clean with
    | [a, c] => .ok (a, c)
    | _ => .error .valueError
  else
    if clean.length ≠ 4 then .error .valueError
    else .ok (clean.take 2, clean.drop 2)

/-- `ChessNotationConverter.long_to_algebraic`. -/
def longToAlgebraic (b : Board) (s : List Char) : Except Err (List Char) :=
  match parseLong s with
  | .error e => .error e
  | .ok (frm, tgt) => buildAlgebraic b frm tgt

/-- The candidate scan of `_find_source_square`: every square holding a
piece of the sought type belonging to the side to move whose legal moves
or captures contain the destination (the raw `self.squares[destination]`
access raises `KeyError` on a bad destination). -/
def sourceCandidates (b : Board) (pt : PKind) (dest : List Char) :
    Except Err (List Pos) :=
  squaresList.foldlM (fun acc k =>
    match b.squares k with
    | some q =>
        if q.kind = pt ∧ q.color = b.turn then do
          let lm ← getLegalMoves b k
          let lc ← getLegalCaptures b k
          if strIsSquare dest = true then
            pure (if strToPos dest ∈ lm ∨ strToPos dest ∈ lc then acc ++ [k] else acc)
          else .error .keyError
        else pure acc
    | none => pure acc) []

/-- `ChessNotationConverter._find_source_square`. -/
def findSourceSquare (b : Board) (pt : PKind) (piecePart dest : List Char) :
    Except Err (List Char) :=
  match sourceCandidates b pt dest with
  | .error e => .error e
  | .ok [] => .error .valueError
  | .ok [k] => .ok (posToStr k)
  | .ok cands =>
      let disamb := match piecePart with
        | [] => piecePart
        | c :: _ => if c.isUpper then piecePart.tail else piecePart
      match cands.find? (fun k => listIsSub disamb (posToStr k)) with
      | some k => .ok (posToStr k)
      | none => .error .valueError

/-- The indicator cleaning in `algebraic_to_long`: strip the check and
mate markers. -/
def algNota (s : List Char) : List Char :=
  s.filter (fun c => decide (c ≠ '+' ∧ c ≠ '#'))

/-- The component extraction of `algebraic_to_long`: split on the capture
marker when present (Python takes `parts[0]` and `parts[1]`), otherwise
slice the last two characters off as the destination. -/
def algParts (s : List Char) : List Char × List Char :=
  let nota := algNota s
  if 'x' ∈ nota then
    match splitOnChar 'x' nota with
    | a :: c :: _ => (a, c)
    | [a] => (a, a)
    | [] => ([], [])
  else (nota.take (nota.length - 2), nota.drop (nota.length - 2))

/-- The piece-type determination of `algebraic_to_long`: empty or
lowercase-leading piece part means a pawn, otherwise the symbol dictionary
(raising `KeyError` on an unknown symbol). -/
def pieceTypeOf : List Char → Except Err PKind
  | [] => .ok PKind.pawn
  | c :: _ =>
      if c.isLower = true then .ok PKind.pawn
      else
        match c.toUpper with
        | 'K' => .ok PKind.king
        | 'Q' => .ok PKind.queen
        | 'R' => .ok PKind.rook
        | 'B' => .ok PKind.bishop
        | 'N' => .ok PKind.knight
        | _ => .error Err.keyError

/-- `ChessNotationConverter.algebraic_to_long`. -/
def algebraicToLong (b : Board) (s : List Char) : Except Err (List Char) :=
  if s = ['O', '-', 'O'] ∨ s = ['0', '-', '0'] then
    .ok (if b.turn = PColor.light then ['e', '1', 'g', '1'] else ['e', '8', 'g', '8'])
  else if s = ['O', '-', 'O', '-', 'O'] ∨ s = ['0', '-', '0', '-', '0'] then
    .ok (if b.turn = PColor.light then ['e', '1', 'c', '1'] else ['e', '8', 'c', '8'])
  else
    match pieceTypeOf (algParts s).1 with
    | .error e => .error e
    | .ok pt =>
        match findSourceSquare b pt (algParts s).1 (algParts s).2 with
        | .error e => .error e
        | .ok src => .ok (src ++ (algParts s).2)

/-- The character classes appearing in square strings: a rank digit
`'1'..'8'` or a file letter `'a'..'h'`. -/
abbrev sqChar (c : Char) : Prop :=
  (49 ≤ c.toNat ∧ c.toNat ≤ 56) ∨ (97 ≤ c.toNat ∧ c.toNat ≤ 104)

/-- The extended-notation demo position of `chess_notation.py`: a light
pawn on f4 and a dark pawn on g5, light to move. -/
def c7Board : Board :=
  mkBoard [(((102 : Int), (4 : Int)), pc .pawn .light),
    (((103 : Int), (5 : Int)), pc .pawn .dark)] .light

/-- An offset lies on a true rank, file or diagonal line: a component is
zero, or both are nonzero with equal absolute values (the claim's wording
of alignment for sliding attacks). -/
def alignedOffset (fo ro : Int) : Prop :=
  fo = 0 ∨ ro = 0 ∨ fo.natAbs = ro.natAbs

/-- The squares strictly between `sq` and `tgt` along the line from `sq`
toward `tgt`: step from `sq` by the unit direction, stopping one short of
`tgt`.  (Spec-side description of "every intervening square".) -/
def betweenSquares (sq tgt : Pos) : List Pos :=
  (List.range (max (tgt.1 - sq.1).natAbs (tgt.2 - sq.2).natAbs - 1)).map
    (fun (i : Nat) => (sq.1 + ((i : Int) + 1) * dirOf (tgt.1 - sq.1),
               sq.2 + ((i : Int) + 1) * dirOf (tgt.2 - sq.2)))

/-- The specification's description of when a sliding piece `p` sitting on
`sq` attacks `tgt`: the offset's unit direction is in the piece's capture
pattern, the offset lies on a true rank, file or diagonal line, and every
intervening square between the piece and the target is empty.  This is
stated from the claim's words, to be compared against `pieceAttacks`,
which is translated from the source. -/
def specSlidingAttack (b : Board) (sq tgt : Pos) (p : Piece) : Prop :=
  (dirOf (tgt.1 - sq.1), dirOf (tgt.2 - sq.2)) ∈ p.getCapturePattern ∧
  alignedOffset (tgt.1 - sq.1) (tgt.2 - sq.2) ∧
  ∀ q ∈ betweenSquares sq tgt, b.squares q = none

section Lemmas

lemma squares_setSquare (b : Board) (p : Pos) (v : Option Piece) :
    (b.setSquare p v).squares = fun q => if q = p then v else b.squares q := rfl

lemma turn_setSquare (b : Board) (p : Pos) (v : Option Piece) :
    (b.setSquare p v).turn = b.turn := by
  cases b; rfl

lemma turns_setSquare (b : Board) (p : Pos) (v : Option Piece) :
    (b.setSquare p v).turns = b.turns := by
  cases b; rfl

lemma gameStates_setSquare (b : Board) (p : Pos) (v : Option Piece) :
    (b.setSquare p v).gameStates = b.gameStates := by
  cases b; rfl

lemma any_congr_on {α} (l : List α) (f g : α → Bool)
    (h : ∀ x ∈ l, f x = g x) : l.any f = l.any g := by
  induction l with
  | nil => rfl
  | cons a t ih =>
      simp only [List.any_cons]
      rw [h a (List.mem_cons_self a t), ih (fun x hx => h x (List.mem_cons_of_mem a hx))]

lemma slidingWalk_congr (b b' : Board)
    (h : ∀ k, (b.squares k).isSome = (b'.squares k).isSome)
    (tgt : Pos) (fs rs : Int) (n : Nat) (cur : Pos) :
    slidingWalk b tgt fs rs n cur = slidingWalk b' tgt fs rs n cur := by
  induction n generalizing cur with
  | zero => rfl
  | succ m ih =>
      simp only [slidingWalk]
      rw [h cur]
      split
      · split
        · rfl
        · exact ih _
      · rfl

lemma getCapturePattern_congr (p p' : Piece) (hk : p.kind = p'.kind)
    (hc : p.color = p'.color) : p.getCapturePattern = p'.getCapturePattern := by
  unfold Piece.getCapturePattern Piece.getMovePattern Piece.direction
  rw [hk, hc]
  cases p'.kind <;> simp

lemma pieceAttacks_congr (b b' : Board)
    (h : ∀ k, (b.squares k).isSome = (b'.squares k).isSome)
    (sq : Pos) (p p' : Piece) (hk : p.kind = p'.kind) (hc : p.color = p'.color)
    (tgt : Pos) : pieceAttacks b sq p tgt = pieceAttacks b' sq p' tgt := by
  unfold pieceAttacks isSlidingPathClear Piece.isSlidingPiece
  rw [getCapturePattern_congr p p' hk hc, hk]
  simp only [slidingWalk_congr b b' h]

lemma isInCheckFrom_congr (b b' : Board)
    (h : ∀ k, attackView (b.squares k) = attackView (b'.squares k))
    (tgt : Pos) (c : PColor) :
    isInCheckFrom b tgt c = isInCheckFrom b' tgt c := by
  have hsome : ∀ k, (b.squares k).isSome = (b'.squares k).isSome := by
    intro k
    have := h k
    unfold attackView at this
    cases hb : b.squares k <;> cases hb' : b'.squares k <;>
      simp [hb, hb'] at this ⊢
  unfold isInCheckFrom
  apply any_congr_on
  intro sq _
  have hv := h sq
  unfold attackView at hv
  cases hb : b.squares sq <;> cases hb' : b'.squares sq
  case none.none => rfl
  case none.some => rw [hb, hb'] at hv; simp at hv
  case some.none => rw [hb, hb'] at hv; simp at hv
  case some.some p q =>
    rw [hb, hb'] at hv
    simp only [Option.map_some', Option.some.injEq, Prod.mk.injEq] at hv
    obtain ⟨hk, hc⟩ := hv
    show (decide (p.color = c) && pieceAttacks b sq p tgt) =
      (decide (q.color = c) && pieceAttacks b' sq q tgt)
    rw [hc, pieceAttacks_congr b b' hsome sq p q hk hc tgt]

lemma pawnClear_attackView (t : PColor) (o : Option Piece) :
    attackView (pawnClear t o) = attackView o := by
  cases o with
  | none => rfl
  | some p =>
      simp only [pawnClear]
      split <;> simp [attackView]

lemma endTurnStep_ok_char (bb : Board) (k : Pos) (bb' : Board)
    (h : endTurnStep bb k = .ok bb') :
    bb'.squares k = pawnClear bb.turn (bb.squares k) ∧
    (∀ q, q ≠ k → bb'.squares q = bb.squares q) ∧
    bb'.turn = bb.turn ∧ bb'.turns = bb.turns ∧ bb'.gameStates = bb.gameStates := by
  unfold endTurnStep at h
  cases hsq : bb.squares k with
  | none =>
      simp only [hsq] at h
      cases h
      simp [pawnClear, hsq]
  | some p =>
      simp only [hsq] at h
      by_cases h1 : p.kind = .pawn ∧ p.color ≠ bb.turn
      · rw [if_pos h1] at h
        cases h
        refine ⟨?_, ?_, turn_setSquare _ _ _, turns_setSquare _ _ _,
          gameStates_setSquare _ _ _⟩
        · simp [squares_setSquare, pawnClear, hsq, h1]
        · intro q hq
          simp [squares_setSquare, hq]
      · rw [if_neg h1] at h
        by_cases h2 : p.kind = .king ∧ p.color ≠ bb.turn
        · rw [if_pos h2] at h
          by_cases h3 : isInCheckFrom bb k bb.turn
          · rw [if_pos h3] at h
            exact absurd h (by simp [raiseCheckFlag, Bind.bind, Except.bind])
          · rw [if_neg h3] at h
            cases h
            simp [pawnClear, hsq, h1]
        · rw [if_neg h2] at h
          cases h
          simp [pawnClear, hsq, h1]

lemma foldlM_endTurnStep_char (l : List Pos) (hl : l.Nodup) (b0 b1 : Board)
    (h : List.foldlM endTurnStep b0 l = .ok b1) :
    (∀ k ∈ l, b1.squares k = pawnClear b0.turn (b0.squares k)) ∧
    (∀ k, k ∉ l → b1.squares k = b0.squares k) ∧
    b1.turn = b0.turn ∧ b1.turns = b0.turns ∧ b1.gameStates = b0.gameStates := by
  induction l generalizing b0 with
  | nil =>
      cases h
      exact ⟨fun k hk => absurd hk (List.not_mem_nil k), fun k _ => rfl, rfl, rfl, rfl⟩
  | cons a t ih =>
      rw [List.foldlM_cons] at h
      cases hstep : endTurnStep b0 a with
      | error e =>
          rw [hstep] at h
          exact absurd h (by simp [Bind.bind, Except.bind])
      | ok b0' =>
          rw [hstep] at h
          have h' : List.foldlM endTurnStep b0' t = .ok b1 := h
          obtain ⟨hk, hq, ht, hn, hg⟩ := endTurnStep_ok_char b0 a b0' hstep
          have hanot : a ∉ t := (List.nodup_cons.mp hl).1
          obtain ⟨ih1, ih2, ih3, ih4, ih5⟩ := ih (List.nodup_cons.mp hl).2 b0' h'
          refine ⟨?_, ?_, ih3.trans ht, ih4.trans hn, ih5.trans hg⟩
          · intro k hkmem
            rcases List.mem_cons.mp hkmem with rfl | hkt
            · rw [ih2 k hanot, hk]
            · rw [ih1 k hkt, ht, hq k (fun hek => hanot (hek ▸ hkt))]
          · intro k hknot
            have hka : k ≠ a := fun he => hknot (he ▸ List.mem_cons_self a t)
            have hkt : k ∉ t := fun he => hknot (List.mem_cons_of_mem a he)
            rw [ih2 k hkt, hq k hka]

lemma foldlM_endTurnStep_ok (l : List Pos) (hl : l.Nodup) (b0 : Board)
    (h : ∀ k ∈ l, ∀ p, b0.squares k = some p → p.kind = .king →
        p.color ≠ b0.turn → isInCheckFrom b0 k b0.turn = false) :
    ∃ b1, List.foldlM endTurnStep b0 l = .ok b1 := by
  induction l generalizing b0 with
  | nil => exact ⟨b0, rfl⟩
  | cons a t ih =>
      have hstep : ∃ b0', endTurnStep b0 a = .ok b0' := by
        cases hsq : b0.squares a with
        | none => exact ⟨b0, by simp only [endTurnStep, hsq]; rfl⟩
        | some p =>
            by_cases h1 : p.kind = .pawn ∧ p.color ≠ b0.turn
            · refine ⟨b0.setSquare a (some { p with vulnerable := false }), ?_⟩
              simp only [endTurnStep, hsq]
              rw [if_pos h1]
              rfl
            · by_cases h2 : p.kind = .king ∧ p.color ≠ b0.turn
              · have hchk : isInCheckFrom b0 a b0.turn = false :=
                  h a (List.mem_cons_self a t) p hsq h2.1 h2.2
                refine ⟨b0, ?_⟩
                simp only [endTurnStep, hsq]
                rw [if_neg h1, if_pos h2, hchk]
                rfl
              · refine ⟨b0, ?_⟩
                simp only [endTurnStep, hsq]
                rw [if_neg h1, if_neg h2]
                rfl
      obtain ⟨b0', hstep⟩ := hstep
      obtain ⟨hk, hq, ht, _, _⟩ := endTurnStep_ok_char b0 a b0' hstep
      have hview : ∀ q, attackView (b0'.squares q) = attackView (b0.squares q) := by
        intro q
        by_cases hqa : q = a
        · subst hqa
          rw [hk, pawnClear_attackView]
        · rw [hq q hqa]
      obtain ⟨b1, hb1⟩ := ih (List.nodup_cons.mp hl).2 b0' (by
        intro k hkmem p hp hking hcol
        have hka : k ≠ a := fun he => (List.nodup_cons.mp hl).1 (he ▸ hkmem)
        rw [ht] at hcol
        rw [hq k hka] at hp
        rw [isInCheckFrom_congr b0' b0 hview k b0'.turn, ht]
        exact h k (List.mem_cons_of_mem a hkmem) p hp hking (ht ▸ hcol))
      exact ⟨b1, by rw [List.foldlM_cons, hstep]; exact hb1⟩

lemma squaresList_nodup : squaresList.Nodup := by decide

lemma mem_squaresList_of_validPos (p : Pos) (h : validPos p) : p ∈ squaresList := by
  obtain ⟨f, r⟩ := p
  obtain ⟨h1, h2, h3, h4⟩ := h
  simp only [squaresList, List.mem_flatMap, List.mem_map]
  refine ⟨f, ?_, r, ?_, rfl⟩
  · simp only at h1 h2
    interval_cases f <;> decide
  · simp only at h3 h4
    interval_cases r <;> decide

lemma endTurn_char (b b' : Board) (h : endTurn b = .ok b') :
    (∀ k ∈ squaresList, b'.squares k = pawnClear b.turn (b.squares k)) ∧
    b'.turn = b.turn.other ∧
    b'.turns = (if b.turn = .light then b.turns + 1 else b.turns) ∧
    (∃ snap, b'.gameStates = ((b'.turns, b.turn), snap) :: b.gameStates ∧
      snap.turn = b.turn ∧
      snap.turns = (if b.turn = .light then b.turns + 1 else b.turns) ∧
      snap.gameStates = b.gameStates ∧
      ∀ k ∈ squaresList, snap.squares k = pawnClear b.turn (b.squares k)) := by
  unfold endTurn at h
  cases hb1 : List.foldlM endTurnStep b squaresList with
  | error e =>
      rw [hb1] at h
      exact absurd h (by simp [Bind.bind, Except.bind])
  | ok b1 =>
      rw [hb1] at h
      obtain ⟨hsq, _, hturn, hturns, hgs⟩ :=
        foldlM_endTurnStep_char squaresList squaresList_nodup b b1 hb1
      have hb' : (((b1.setTurns (if b1.turn = .light then b1.turns + 1 else b1.turns)).setGameStates
          ((((if b1.turn = .light then b1.turns + 1 else b1.turns), b1.turn),
            b1.setTurns (if b1.turn = .light then b1.turns + 1 else b1.turns)) ::
            b1.gameStates)).setTurn b1.turn.other) = b' := Except.ok.inj h
      subst hb'
      refine ⟨?_, ?_, ?_, ?_⟩
      · intro k hk
        show b1.squares k = pawnClear b.turn (b.squares k)
        exact hsq k hk
      · show b1.turn.other = b.turn.other
        rw [hturn]
      · show (if b1.turn = .light then b1.turns + 1 else b1.turns) =
          (if b.turn = .light then b.turns + 1 else b.turns)
        rw [hturn, hturns]
      · refine ⟨b1.setTurns (if b1.turn = .light then b1.turns + 1 else b1.turns),
          ?_, ?_, ?_, ?_, ?_⟩
        · show (((if b1.turn = .light then b1.turns + 1 else b1.turns), b1.turn),
              _) :: b1.gameStates = _
          rw [hturn, hturns, hgs]
          rfl
        · show b1.turn = b.turn
          exact hturn
        · show (if b1.turn = .light then b1.turns + 1 else b1.turns) = _
          rw [hturn, hturns]
        · show b1.gameStates = b.gameStates
          exact hgs
        · intro k hk
          show b1.squares k = pawnClear b.turn (b.squares k)
          exact hsq k hk

lemma moveRay_mem (b : Board) (fd rd : Int) (sliding : Bool) :
    ∀ (n : Nat) (cur x : Pos), x ∈ moveRay b fd rd sliding n cur →
      validPos x ∧ b.squares x = none := by
  intro n
  induction n with
  | zero => intro cur x hx; exact absurd hx (List.not_mem_nil x)
  | succ m ih =>
      intro cur x hx
      simp only [moveRay] at hx
      split at hx
      · exact absurd hx (List.not_mem_nil x)
      · rename_i hbounds
        split at hx
        · exact absurd hx (List.not_mem_nil x)
        · rename_i hocc
          split at hx
          · rw [List.mem_singleton] at hx
            subst hx
            exact ⟨not_not.mp hbounds, by simpa using hocc⟩
          · rcases List.mem_cons.mp hx with rfl | hx'
            · exact ⟨not_not.mp hbounds, by simpa using hocc⟩
            · exact ih _ x hx'

lemma discoveredCheck_move_ok (b : Board) (frm m : Pos) (p : Piece)
    (hf : validPos frm) (hm : validPos m)
    (hfp : b.squares frm = some p) (hme : b.squares m = none) :
    ∃ v, isDiscoveredCheck b frm m false = .ok v := by
  have hne : frm ≠ m := fun h => by rw [h, hme] at hfp; exact Option.noConfusion hfp
  have hmv : movePieceB b frm m = .ok ((b.setSquare frm none).setSquare m (some p)) := by
    unfold movePieceB
    rw [if_neg (not_not_intro ⟨hf, hm⟩), if_neg hne]
    simp only [hfp, hme]
  have h0 : isDiscoveredCheck b frm m false =
      (match movePieceB b frm m with
       | .error e => (.error e : Except Err Bool)
       | .ok b2 => .ok (kingScan b2 b.turn b.turn.other)) := rfl
  rw [h0, hmv]
  exact ⟨_, rfl⟩

lemma foldlM_dcfilter (b : Board) (frm : Pos) (cap : Bool) (l : List Pos)
    (h : ∀ x ∈ l, ∃ v, isDiscoveredCheck b frm x cap = .ok v) :
    ∀ acc, ∃ res,
      List.foldlM (fun acc m => do
        let dc ← isDiscoveredCheck b frm m cap
        pure (if ¬ dc then acc ++ [m] else acc)) acc l = .ok res ∧
      (∀ x ∈ acc, x ∈ res) ∧
      (∀ x ∈ l, isDiscoveredCheck b frm x cap = .ok false → x ∈ res) ∧
      (∀ x ∈ res, x ∈ acc ∨ x ∈ l) := by
  induction l with
  | nil =>
      intro acc
      exact ⟨acc, rfl, fun x hx => hx,
        fun x hx => absurd hx (List.not_mem_nil x),
        fun x hx => Or.inl hx⟩
  | cons a t ih =>
      intro acc
      obtain ⟨v, hv⟩ := h a (List.mem_cons_self a t)
      have ht : ∀ x ∈ t, ∃ v, isDiscoveredCheck b frm x cap = .ok v :=
        fun x hx => h x (List.mem_cons_of_mem a hx)
      obtain ⟨res, hres, hacc, hmem, hsub⟩ :=
        (ih ht (if ¬ v then acc ++ [a] else acc))
      refine ⟨res, ?_, ?_, ?_, ?_⟩
      · rw [List.foldlM_cons, hv]
        exact hres
      · intro x hx
        apply hacc
        split
        · exact List.mem_append_left _ hx
        · exact hx
      · intro x hx hchk
        rcases List.mem_cons.mp hx with rfl | hxt
        · rw [hchk] at hv
          have hveq : v = false := (Except.ok.inj hv).symm
          subst hveq
          exact hacc x (by simp)
        · exact hmem x hxt hchk
      · intro x hx
        rcases hsub x hx with hxa | hxt
        · by_cases hvv : v
          · rw [if_neg (not_not_intro hvv)] at hxa
            exact Or.inl hxa
          · rw [if_pos hvv] at hxa
            rcases List.mem_append.mp hxa with hxa' | hxa''
            · exact Or.inl hxa'
            · exact Or.inr (List.mem_cons.mpr (Or.inl (List.mem_singleton.mp hxa'')))
        · exact Or.inr (List.mem_cons_of_mem a hxt)

lemma okBindE {α β : Type} (x : α) (g : α → Except Err β) :
    (Except.ok x >>= g) = g x := rfl

lemma errBindE {α β : Type} (e : Err) (g : α → Except Err β) :
    ((Except.error e : Except Err α) >>= g) = Except.error e := rfl

lemma pureBindE {α β : Type} (x : α) (g : α → Except Err β) :
    ((pure x : Except Err α) >>= g) = g x := rfl

lemma direction_cases (p : Piece) : p.direction = 1 ∨ p.direction = -1 := by
  unfold Piece.direction
  split
  · exact Or.inl rfl
  · exact Or.inr rfl

lemma direction_ne_zero (p : Piece) : p.direction ≠ 0 := by
  rcases direction_cases p with h | h <;> rw [h] <;> decide

lemma validateOrigin_ok (b : Board) (frm tgt : Pos) (v : Bool)
    (h : validateOriginConstraints b frm tgt = .ok v) : v = true := by
  unfold validateOriginConstraints at h
  split at h
  · exact absurd h (by simp)
  · split at h
    · exact absurd h (by simp)
    · split at h
      · exact absurd h (by simp)
      · exact (Except.ok.inj h).symm

lemma validateMoveOther_ok (b : Board) (tgt : Pos) (v : Bool)
    (h : validateMoveOther b tgt = .ok v) : v = true := by
  unfold validateMoveOther at h
  split at h
  · exact absurd h (by simp)
  · exact (Except.ok.inj h).symm

lemma validateMovePieceMovement_ok (b : Board) (frm tgt : Pos) (v : Bool)
    (h : validateMovePieceMovement b frm tgt = .ok v) : v = true := by
  unfold validateMovePieceMovement at h
  cases hlm : getLegalMoves b frm with
  | error e => rw [hlm, errBindE] at h; exact absurd h (by simp)
  | ok lm =>
      rw [hlm, okBindE] at h
      split at h
      · exact (Except.ok.inj h).symm
      · exact absurd h (by simp [throw, throwThe, MonadExceptOf.throw])

lemma validateMove_ok_false (b : Board) (frm tgt : Pos)
    (h : validateMove b frm tgt = .ok false) :
    ∃ q, b.squares frm = some q ∧ q.kind = .king := by
  unfold validateMove at h
  cases ho : validateOriginConstraints b frm tgt with
  | error e => rw [ho, errBindE] at h; exact absurd h (by simp)
  | ok a =>
      rw [ho, okBindE] at h
      rw [validateOrigin_ok b frm tgt a ho] at h
      rw [if_pos rfl] at h
      cases hc : validateMoveOther b tgt with
      | error e => rw [hc, errBindE] at h; exact absurd h (by simp)
      | ok c =>
          rw [hc, okBindE] at h
          rw [validateMoveOther_ok b tgt c hc, if_pos rfl] at h
          cases hd : validateMovePieceMovement b frm tgt with
          | error e => rw [hd, errBindE] at h; exact absurd h (by simp)
          | ok d =>
              rw [hd, okBindE] at h
              rw [validateMovePieceMovement_ok b frm tgt d hd, if_pos rfl] at h
              have hcr : validateCheckRules b frm tgt = false := Except.ok.inj h
              unfold validateCheckRules at hcr
              cases hsq : b.squares frm with
              | none => rw [hsq] at hcr; simp at hcr
              | some q =>
                  rw [hsq] at hcr
                  by_cases hq : q.kind = .king
                  · exact ⟨q, rfl, hq⟩
                  · simp [hq] at hcr

lemma movePieceB_ok (b b2 : Board) (frm tgt : Pos)
    (h : movePieceB b frm tgt = .ok b2) :
    ∃ q, b.squares frm = some q ∧ b.squares tgt = none ∧ frm ≠ tgt ∧
      b2 = (b.setSquare frm none).setSquare tgt (some q) := by
  unfold movePieceB at h
  split at h
  · exact absurd h (by simp)
  · split at h
    · exact absurd h (by simp)
    · rename_i hvv hne
      cases hsq : b.squares frm with
      | none => rw [hsq] at h; exact absurd h (by simp)
      | some q =>
          rw [hsq] at h
          cases htq : b.squares tgt with
          | some _ => rw [htq] at h; exact absurd h (by simp)
          | none =>
              rw [htq] at h
              exact ⟨q, rfl, rfl, hne, (Except.ok.inj h).symm⟩

lemma discoveredCheck_cap_regular_ok (b : Board) (frm m : Pos) (p q : Piece)
    (hf : validPos frm) (hm : validPos m) (hfp : b.squares frm = some p)
    (hmq : b.squares m = some q) (hrank : frm.2 ≠ m.2) :
    ∃ v, isDiscoveredCheck b frm m true = .ok v := by
  have hne : frm ≠ m := fun h => hrank (congrArg Prod.snd h)
  have hrm : squareRemove b m = .ok (q, b.setSquare m none) := by
    unfold squareRemove; rw [hmq]
  have hfp' : (b.setSquare m none).squares frm = some p := by
    rw [squares_setSquare]; simp only [if_neg hne]; exact hfp
  have hmn : (b.setSquare m none).squares m = none := by
    rw [squares_setSquare]; simp
  have hmv : movePieceB (b.setSquare m none) frm m =
      .ok (((b.setSquare m none).setSquare frm none).setSquare m (some p)) := by
    unfold movePieceB
    rw [if_neg (not_not_intro ⟨hf, hm⟩), if_neg hne]
    simp only [hfp', hmn]
  have hprep : dcPrep b frm m true = .ok (b.setSquare m none, m) := by
    unfold dcPrep
    rw [if_neg (show ¬ (frm.2 = m.2 ∧
      ((b.squares frm).any fun p => p.kind == .pawn) = true) from
      fun hco => hrank hco.1)]
    simp only [hrm]
    simp
  unfold isDiscoveredCheck
  rw [hprep]
  show ∃ v, (match movePieceB (b.setSquare m none) frm m with
      | .error e => (.error e : Except Err Bool)
      | .ok b2 => .ok (kingScan b2 b.turn b.turn.other)) = Except.ok v
  rw [hmv]
  exact ⟨_, rfl⟩

lemma discoveredCheck_enpassant_ok (b : Board) (frm m : Pos) (cp q : Piece)
    (hfp : b.squares frm = some cp) (hk : cp.kind = .pawn)
    (hf : validPos frm) (hm : validPos m) (hw : frm.1 ≠ m.1) (hr : frm.2 = m.2)
    (hmq : b.squares m = some q)
    (hland : b.squares (m.1, frm.2 + cp.direction) = none)
    (hrank1 : 1 ≤ frm.2 + cp.direction) (hrank2 : frm.2 + cp.direction ≤ 8) :
    ∃ v, isDiscoveredCheck b frm m true = .ok v := by
  have hne : frm ≠ m := fun h => hw (congrArg Prod.fst h)
  have hlne : frm ≠ (m.1, frm.2 + cp.direction) :=
    fun h => direction_ne_zero cp (by
      have := congrArg Prod.snd h
      simp only at this
      omega)
  have hmne : m ≠ (m.1, frm.2 + cp.direction) :=
    fun h => direction_ne_zero cp (by
      have := congrArg Prod.snd h
      simp only at this
      omega)
  have hrm : squareRemove b m = .ok (q, b.setSquare m none) := by
    unfold squareRemove; rw [hmq]
  have hfp' : (b.setSquare m none).squares frm = some cp := by
    rw [squares_setSquare]; simp only [if_neg hne]; exact hfp
  have hlnd' : (b.setSquare m none).squares (m.1, frm.2 + cp.direction) = none := by
    rw [squares_setSquare]
    simp only [if_neg (show ¬ ((m.1, frm.2 + cp.direction) : Pos) = m from
      fun h => hmne h.symm)]
    exact hland
  have hvl : validPos ((m.1, frm.2 + cp.direction) : Pos) := by
    obtain ⟨hm1, hm2, _, _⟩ := hm
    exact ⟨hm1, hm2, hrank1, hrank2⟩
  have hmv : movePieceB (b.setSquare m none) frm (m.1, frm.2 + cp.direction) =
      .ok (((b.setSquare m none).setSquare frm none).setSquare
        (m.1, frm.2 + cp.direction) (some cp)) := by
    unfold movePieceB
    rw [if_neg (not_not_intro ⟨hf, hvl⟩), if_neg hlne]
    simp only [hfp', hlnd']
  have hcond : frm.2 = m.2 ∧ ((b.squares frm).any fun p => p.kind == .pawn) = true := by
    refine ⟨hr, ?_⟩
    rw [hfp]
    simp [Option.any, hk]
  have hprep : dcPrep b frm m true =
      .ok (b.setSquare m none, (m.1, frm.2 + cp.direction)) := by
    unfold dcPrep
    rw [if_pos hcond]
    simp only [hrm, hfp]
    rw [if_neg (not_not_intro hvl)]
    simp
  unfold isDiscoveredCheck
  rw [hprep]
  show ∃ v, (match movePieceB (b.setSquare m none) frm (m.1, frm.2 + cp.direction) with
      | .error e => (.error e : Except Err Bool)
      | .ok b2 => .ok (kingScan b2 b.turn b.turn.other)) = Except.ok v
  rw [hmv]
  exact ⟨_, rfl⟩

lemma pawn_not_sliding (cp : Piece) (hk : cp.kind = .pawn) :
    cp.isSlidingPiece = false := by
  simp [Piece.isSlidingPiece, hk]

lemma captureContrib_of_first (b : Board) (frm : Pos) (cp : Piece)
    (hk : cp.kind = .pawn) (v : Int × Int) (cs : List Pos)
    (h : captureFirst b frm cp v = .ok cs) :
    captureContrib b frm cp v = .ok cs := by
  unfold captureContrib
  rw [h, pawn_not_sliding cp hk]
  simp

lemma captureContrib_diag (b : Board) (f r ε : Int) (cp : Piece)
    (hk : cp.kind = .pawn) :
    ∃ cs, captureContrib b (f, r) cp (ε, cp.direction) = .ok cs ∧
      ∀ m ∈ cs, m = ((f + ε, r + cp.direction) : Pos) ∧ validPos m ∧
        ∃ q, b.squares m = some q ∧ q.color ≠ cp.color := by
  have hd := direction_ne_zero cp
  have hnotlat : ¬ (((ε, cp.direction) : Int × Int) = (-1, 0) ∨
      ((ε, cp.direction) : Int × Int) = (1, 0)) := by
    rintro (h | h) <;> exact hd (congrArg Prod.snd h)
  by_cases hb : (97 ≤ f + ε ∧ f + ε ≤ 104 ∧ 1 ≤ r + cp.direction ∧
      r + cp.direction ≤ 8)
  · cases hocc : b.squares (f + ε, r + cp.direction) with
    | none =>
        refine ⟨[], captureContrib_of_first b (f, r) cp hk _ [] ?_,
          fun m hm => absurd hm (List.not_mem_nil m)⟩
        unfold captureFirst
        simp only [hocc]
        rw [if_pos hb]
    | some q =>
        by_cases hqc : q.color = cp.color
        · refine ⟨[], captureContrib_of_first b (f, r) cp hk _ [] ?_,
            fun m hm => absurd hm (List.not_mem_nil m)⟩
          unfold captureFirst
          simp only [hocc]
          rw [if_pos hb, if_neg (not_not_intro hqc)]
        · refine ⟨[((f + ε, r + cp.direction) : Pos)],
            captureContrib_of_first b (f, r) cp hk _ _ ?_, ?_⟩
          · unfold captureFirst
            simp only [hocc]
            rw [if_pos hb, if_pos hqc, if_neg (fun hc => hnotlat hc.2.2)]
          · intro m hm
            rw [List.mem_singleton.mp hm]
            exact ⟨rfl, hb, q, hocc, hqc⟩
  · refine ⟨[], captureContrib_of_first b (f, r) cp hk _ [] ?_,
      fun m hm => absurd hm (List.not_mem_nil m)⟩
    unfold captureFirst
    rw [if_neg hb]

lemma captureContrib_lat_target (b : Board) (f r w : Int) (cp cq : Piece)
    (hk : cp.kind = .pawn) (hcqk : cq.kind = .pawn)
    (htl : ((w, 0) : Int × Int) = (-1, 0) ∨ ((w, 0) : Int × Int) = (1, 0))
    (hvt : validPos (f + w, r)) (hocc : b.squares (f + w, r) = some cq)
    (hene : cq.color ≠ cp.color) (hvuln : cq.vulnerable = false) :
    captureContrib b (f, r) cp (w, 0) = .ok [] := by
  apply captureContrib_of_first b (f, r) cp hk
  unfold captureFirst
  obtain ⟨h1, h2, h3, h4⟩ := hvt
  simp only at h1 h2 h3 h4
  simp only [add_zero, hocc]
  rw [if_pos ⟨h1, h2, h3, h4⟩, if_pos hene, if_pos ⟨hk, hcqk, htl⟩,
    if_neg (by rw [hvuln]; exact Bool.false_ne_true)]

lemma captureContrib_lat_mirror (b : Board) (f r w : Int) (cp : Piece)
    (hk : cp.kind = .pawn)
    (htl : ((w, 0) : Int × Int) = (-1, 0) ∨ ((w, 0) : Int × Int) = (1, 0))
    (hrank1 : 1 ≤ r + cp.direction) (hrank2 : r + cp.direction ≤ 8)
    (hmir : ∀ q, b.squares (f + w, r) = some q → q.color ≠ cp.color →
      q.kind ≠ .pawn → b.squares (f + w, r + cp.direction) = none) :
    ∃ cs, captureContrib b (f, r) cp (w, 0) = .ok cs ∧
      ∀ m ∈ cs, m = ((f + w, r) : Pos) ∧ validPos m ∧
        b.squares (f + w, r + cp.direction) = none ∧
        ∃ q, b.squares m = some q ∧ q.color ≠ cp.color := by
  by_cases hb : (97 ≤ f + w ∧ f + w ≤ 104 ∧ 1 ≤ r ∧ r ≤ 8)
  · cases hocc : b.squares (f + w, r) with
    | none =>
        refine ⟨[], captureContrib_of_first b (f, r) cp hk _ [] ?_,
          fun m hm => absurd hm (List.not_mem_nil m)⟩
        unfold captureFirst
        simp only [add_zero, hocc]
        rw [if_pos hb]
    | some q =>
        by_cases hqc : q.color = cp.color
        · refine ⟨[], captureContrib_of_first b (f, r) cp hk _ [] ?_,
            fun m hm => absurd hm (List.not_mem_nil m)⟩
          unfold captureFirst
          simp only [add_zero, hocc]
          rw [if_pos hb, if_neg (not_not_intro hqc)]
        · by_cases hqk : q.kind = .pawn
          · by_cases hv : q.vulnerable = true
            · have hvfin : validPos ((f + w, r + cp.direction) : Pos) :=
                ⟨hb.1, hb.2.1, hrank1, hrank2⟩
              by_cases hfin : (b.squares (f + w, r + cp.direction)).isSome = true
              · refine ⟨[], captureContrib_of_first b (f, r) cp hk _ [] ?_,
                  fun m hm => absurd hm (List.not_mem_nil m)⟩
                unfold captureFirst
                simp only [add_zero, hocc]
                rw [if_pos hb, if_pos hqc, if_pos ⟨hk, hqk, htl⟩, if_pos hv,
                  if_neg (not_not_intro hvfin), if_pos hfin]
              · refine ⟨[((f + w, r) : Pos)],
                  captureContrib_of_first b (f, r) cp hk _ _ ?_, ?_⟩
                · unfold captureFirst
                  simp only [add_zero, hocc]
                  rw [if_pos hb, if_pos hqc, if_pos ⟨hk, hqk, htl⟩, if_pos hv,
                    if_neg (not_not_intro hvfin), if_neg hfin]
                · intro m hm
                  rw [List.mem_singleton.mp hm]
                  exact ⟨rfl, hb, Option.not_isSome_iff_eq_none.mp hfin,
                    q, hocc, hqc⟩
            · refine ⟨[], captureContrib_of_first b (f, r) cp hk _ [] ?_,
                fun m hm => absurd hm (List.not_mem_nil m)⟩
              unfold captureFirst
              simp only [add_zero, hocc]
              rw [if_pos hb, if_pos hqc, if_pos ⟨hk, hqk, htl⟩, if_neg hv]
          · refine ⟨[((f + w, r) : Pos)],
              captureContrib_of_first b (f, r) cp hk _ _ ?_, ?_⟩
            · unfold captureFirst
              simp only [add_zero, hocc]
              rw [if_pos hb, if_pos hqc, if_neg (fun hc => hqk hc.2.1)]
            · intro m hm
              rw [List.mem_singleton.mp hm]
              exact ⟨rfl, hb, hmir q hocc hqc hqk, q, hocc, hqc⟩
  · refine ⟨[], captureContrib_of_first b (f, r) cp hk _ [] ?_,
      fun m hm => absurd hm (List.not_mem_nil m)⟩
    unfold captureFirst
    simp only [add_zero]
    rw [if_neg hb]

lemma getLegalCaptures_excludes (b : Board) (f r : Int) (cp : Piece) (tgt : Pos)
    (hvf : validPos (f, r)) (hfp : b.squares (f, r) = some cp)
    (hcpk : cp.kind = .pawn) (cs1 cs2 cs3 cs4 : List Pos)
    (h1 : captureContrib b (f, r) cp (-1, cp.direction) = .ok cs1)
    (h2 : captureContrib b (f, r) cp (1, cp.direction) = .ok cs2)
    (h3 : captureContrib b (f, r) cp (-1, 0) = .ok cs3)
    (h4 : captureContrib b (f, r) cp (1, 0) = .ok cs4)
    (hnt : tgt ∉ cs1 ++ cs2 ++ cs3 ++ cs4)
    (hsim : ∀ m ∈ cs1 ++ cs2 ++ cs3 ++ cs4,
      ∃ v, isDiscoveredCheck b (f, r) m true = .ok v) :
    ∃ L, getLegalCaptures b (f, r) = .ok L ∧ tgt ∉ L := by
  have hpat : cp.getCapturePattern =
      [(-1, cp.direction), (1, cp.direction), (-1, 0), (1, 0)] := by
    simp [Piece.getCapturePattern, hcpk]
  have hposs : List.foldlM (fun acc v => do
      let c ← captureContrib b (f, r) cp v
      pure (acc ++ c)) [] cp.getCapturePattern =
      .ok (cs1 ++ cs2 ++ cs3 ++ cs4) := by
    rw [hpat]
    simp only [List.foldlM_cons, List.foldlM_nil, h1, h2, h3, h4,
      okBindE, pureBindE, List.nil_append]
    rfl
  obtain ⟨res, hres, _, _, hsub⟩ := foldlM_dcfilter b (f, r) true
    (cs1 ++ cs2 ++ cs3 ++ cs4).dedup
    (fun x hx => hsim x (List.mem_dedup.mp hx)) []
  refine ⟨res.dedup, ?_, ?_⟩
  · unfold getLegalCaptures
    rw [if_neg (not_not_intro hvf)]
    simp only [hfp]
    rw [hposs, okBindE, hres, okBindE]
    rfl
  · intro hmem
    rcases hsub tgt (List.mem_dedup.mp hmem) with hx | hx
    · exact absurd hx (List.not_mem_nil tgt)
    · exact hnt (List.mem_dedup.mp hx)

/-- The main computation behind C4's rejection clause: a lateral
en-passant `ChessCapture` against a non-vulnerable pawn is rejected with
`ChessCannotCaptureOutsideCapturePatternException`, provided the
discovered-check simulation of the *mirrored* lateral vector does not
crash (the `hmir` proviso; without it the attempt dies with a raw
`ValueError`, see the C4 counterexample). -/
lemma lateral_capture_rejected (b : Board) (f r δ : Int) (cp cq : Piece)
    (hδ : δ = 1 ∨ δ = -1)
    (hfp : b.squares (f, r) = some cp) (hcpk : cp.kind = .pawn)
    (hcol : cp.color = b.turn)
    (htp : b.squares (f + δ, r) = some cq) (hcqk : cq.kind = .pawn)
    (hene : cq.color ≠ cp.color) (hvuln : cq.vulnerable = false)
    (hvf : validPos (f, r)) (hvt : validPos (f + δ, r))
    (hrank1 : 1 ≤ r + cp.direction) (hrank2 : r + cp.direction ≤ 8)
    (hmir : ∀ q, b.squares (f - δ, r) = some q → q.color ≠ cp.color →
      q.kind ≠ .pawn → b.squares (f - δ, r + cp.direction) = none) :
    validateCapture b (f, r) (f + δ, r) =
      .error .cannotCaptureOutsideCapturePattern := by
  have hδ0 : δ ≠ 0 := by rcases hδ with rfl | rfl <;> decide
  have hd0 := direction_ne_zero cp
  have hne : ((f, r) : Pos) ≠ (f + δ, r) := by
    intro h
    have := congrArg Prod.fst h
    simp only at this
    omega
  have ho : validateOriginConstraints b (f, r) (f + δ, r) = .ok true := by
    unfold validateOriginConstraints
    rw [if_neg hne]
    simp only [hfp]
    rw [if_neg (not_not_intro hcol)]
  have hoth : validateCaptureOther b (f, r) (f + δ, r) = .ok true := by
    unfold validateCaptureOther
    simp only [htp, hfp]
    rw [if_neg hene]
  -- the per-vector contributions
  obtain ⟨cs1, hc1, hp1⟩ := captureContrib_diag b f r (-1) cp hcpk
  obtain ⟨cs2, hc2, hp2⟩ := captureContrib_diag b f r 1 cp hcpk
  have hlat : ∀ w : Int, w = δ →
      captureContrib b (f, r) cp (w, 0) = .ok [] := by
    rintro w rfl
    exact captureContrib_lat_target b f r w cp cq hcpk hcqk
      (by rcases hδ with rfl | rfl
          · exact Or.inr rfl
          · exact Or.inl rfl) hvt htp hene hvuln
  have hmirw : ∀ w : Int, w = -δ →
      ∃ cs, captureContrib b (f, r) cp (w, 0) = .ok cs ∧
        ∀ m ∈ cs, m = ((f + w, r) : Pos) ∧ validPos m ∧
          b.squares (f + w, r + cp.direction) = none ∧
          ∃ q, b.squares m = some q ∧ q.color ≠ cp.color := by
    rintro w rfl
    refine captureContrib_lat_mirror b f r (-δ) cp hcpk
      (by rcases hδ with rfl | rfl
          · exact Or.inl rfl
          · exact Or.inr rfl) hrank1 hrank2 ?_
    have hsub : f + -δ = f - δ := by ring
    rw [hsub]
    exact hmir
  -- a member of a diagonal contribution admits the regular simulation
  have hsim_diag : ∀ (ε : Int) (cs : List Pos),
      (∀ m ∈ cs, m = ((f + ε, r + cp.direction) : Pos) ∧ validPos m ∧
        ∃ q, b.squares m = some q ∧ q.color ≠ cp.color) →
      ∀ m ∈ cs, ∃ v, isDiscoveredCheck b (f, r) m true = .ok v := by
    intro ε cs hp m hm
    obtain ⟨hme, hvm, q, hq, _⟩ := hp m hm
    refine discoveredCheck_cap_regular_ok b (f, r) m cp q hvf hvm hfp hq ?_
    rw [hme]
    simp only
    omega
  -- a member of a mirror contribution admits the en-passant simulation
  have hsim_mir : ∀ (w : Int) (cs : List Pos), w ≠ 0 →
      (∀ m ∈ cs, m = ((f + w, r) : Pos) ∧ validPos m ∧
        b.squares (f + w, r + cp.direction) = none ∧
        ∃ q, b.squares m = some q ∧ q.color ≠ cp.color) →
      ∀ m ∈ cs, ∃ v, isDiscoveredCheck b (f, r) m true = .ok v := by
    intro w cs hw0 hp m hm
    obtain ⟨hme, hvm, hland, q, hq, _⟩ := hp m hm
    subst hme
    refine discoveredCheck_enpassant_ok b (f, r) (f + w, r) cp q hfp hcpk
      hvf hvm (by simp only; omega) rfl hq (by simpa using hland)
      hrank1 hrank2
  -- membership facts: the claimed target is in no contribution
  have hnt_diag : ∀ (ε : Int) (cs : List Pos),
      (∀ m ∈ cs, m = ((f + ε, r + cp.direction) : Pos) ∧ validPos m ∧
        ∃ q, b.squares m = some q ∧ q.color ≠ cp.color) →
      ((f + δ, r) : Pos) ∉ cs := by
    intro ε cs hp hmem
    have := (hp _ hmem).1
    have h2 := congrArg Prod.snd this
    simp only at h2
    omega
  have hnt_mir : ∀ (w : Int) (cs : List Pos), w = -δ →
      (∀ m ∈ cs, m = ((f + w, r) : Pos) ∧ validPos m ∧
        b.squares (f + w, r + cp.direction) = none ∧
        ∃ q, b.squares m = some q ∧ q.color ≠ cp.color) →
      ((f + δ, r) : Pos) ∉ cs := by
    rintro w cs rfl hp hmem
    have := congrArg Prod.fst (hp _ hmem).1
    simp only at this
    omega
  -- assemble the four vectors according to the sign of δ
  have hLC : ∃ L, getLegalCaptures b (f, r) = .ok L ∧
      ((f + δ, r) : Pos) ∉ L := by
    rcases hδ with rfl | rfl
    · obtain ⟨cs3, hc3, hp3⟩ := hmirw (-1) (by norm_num)
      have hc4 := hlat 1 rfl
      refine getLegalCaptures_excludes b f r cp _ hvf hfp hcpk
        cs1 cs2 cs3 [] hc1 hc2 hc3 hc4 ?_ ?_
      · intro hmem
        rcases List.mem_append.mp hmem with hmem' | hx
        · rcases List.mem_append.mp hmem' with hmem'' | hx3
          · rcases List.mem_append.mp hmem'' with hx1 | hx2
            · exact hnt_diag (-1) cs1 hp1 hx1
            · exact hnt_diag 1 cs2 hp2 hx2
          · exact hnt_mir (-1) cs3 (by norm_num) hp3 hx3
        · exact absurd hx (List.not_mem_nil _)
      · intro m hm
        rcases List.mem_append.mp hm with hm' | hx
        · rcases List.mem_append.mp hm' with hm'' | hx3
          · rcases List.mem_append.mp hm'' with hx1 | hx2
            · exact hsim_diag (-1) cs1 hp1 m hx1
            · exact hsim_diag 1 cs2 hp2 m hx2
          · exact hsim_mir (-1) cs3 (by norm_num) hp3 m hx3
        · exact absurd hx (List.not_mem_nil _)
    · obtain ⟨cs4, hc4, hp4⟩ := hmirw 1 (by norm_num)
      have hc3 := hlat (-1) rfl
      refine getLegalCaptures_excludes b f r cp _ hvf hfp hcpk
        cs1 cs2 [] cs4 hc1 hc2 hc3 hc4 ?_ ?_
      · intro hmem
        rcases List.mem_append.mp hmem with hmem' | hx4
        · rcases List.mem_append.mp hmem' with hmem'' | hx
          · rcases List.mem_append.mp hmem'' with hx1 | hx2
            · exact hnt_diag (-1) cs1 hp1 hx1
            · exact hnt_diag 1 cs2 hp2 hx2
          · exact absurd hx (List.not_mem_nil _)
        · exact hnt_mir 1 cs4 (by norm_num) hp4 hx4
      · intro m hm
        rcases List.mem_append.mp hm with hm' | hx4
        · rcases List.mem_append.mp hm' with hm'' | hx
          · rcases List.mem_append.mp hm'' with hx1 | hx2
            · exact hsim_diag (-1) cs1 hp1 m hx1
            · exact hsim_diag 1 cs2 hp2 m hx2
          · exact absurd hx (List.not_mem_nil _)
        · exact hsim_mir 1 cs4 (by norm_num) hp4 m hx4
  obtain ⟨L, hL, hLnot⟩ := hLC
  have hpm : validateCapturePieceMovement b (f, r) (f + δ, r) =
      .error .cannotCaptureOutsideCapturePattern := by
    unfold validateCapturePieceMovement
    rw [hL, okBindE, if_neg hLnot]
    rfl
  unfold validateCapture
  rw [ho, okBindE]
  rw [hoth]
  rw [hpm]
  rfl

lemma executeMove_pawn_flag (b : Board) (frm tgt : Pos) (p : Piece) (b' : Board)
    (hfp : b.squares frm = some p) (hkind : p.kind = .pawn)
    (hcol : p.color = b.turn) (htv : tgt ∈ squaresList)
    (hex : executeMove b frm tgt = (b', none)) :
    b'.squares tgt = some { p with
      vulnerable := (if (frm.2 - tgt.2).natAbs = 2 then true else p.vulnerable),
      hasMoved := true } := by
  unfold executeMove at hex
  cases hv : validateMove b frm tgt with
  | error e =>
      rw [hv] at hex
      have := congrArg Prod.snd hex
      simp at this
  | ok v =>
      rw [hv] at hex
      cases v with
      | false =>
          obtain ⟨q, hq, hqk⟩ := validateMove_ok_false b frm tgt hv
          rw [hfp] at hq
          rw [← Option.some.inj hq] at hqk
          rw [hkind] at hqk
          exact absurd hqk (by decide)
      | true =>
          simp only [hfp] at hex
          by_cases hd : (frm.2 - tgt.2).natAbs = 2
          · rw [if_pos ⟨hkind, hd⟩] at hex
            cases hmv : movePieceB
                (b.setSquare frm (some { p with vulnerable := true })) frm tgt with
            | error e =>
                simp only [hmv] at hex
                have := congrArg Prod.snd hex
                simp at this
            | ok b2 =>
                simp only [hmv] at hex
                rw [if_pos (Or.inl hkind)] at hex
                obtain ⟨q, hq2, htn, hne2, hb2⟩ := movePieceB_ok _ b2 frm tgt hmv
                have hqv : q = { p with vulnerable := true } := by
                  rw [squares_setSquare] at hq2
                  simp at hq2
                  exact hq2.symm
                have hb2t : b2.squares tgt = some q := by
                  rw [hb2, squares_setSquare]
                  simp
                simp only [hb2t] at hex
                cases het : endTurn
                    (b2.setSquare tgt (some { q with hasMoved := true })) with
                | error e =>
                    simp only [het] at hex
                    have := congrArg Prod.snd hex
                    simp at this
                | ok b4 =>
                    simp only [het] at hex
                    have hb' : b4 = b' := congrArg Prod.fst hex
                    obtain ⟨hsq4, _, _, _⟩ := endTurn_char _ b4 het
                    have h3t : (b2.setSquare tgt
                        (some { q with hasMoved := true })).squares tgt =
                        some { q with hasMoved := true } := by
                      rw [squares_setSquare]
                      simp
                    have hturn3 : (b2.setSquare tgt
                        (some { q with hasMoved := true })).turn = b.turn := by
                      rw [turn_setSquare, hb2, turn_setSquare, turn_setSquare,
                        turn_setSquare]
                    rw [← hb', hsq4 tgt htv, h3t, hturn3, if_pos hd]
                    have hqc : q.color = b.turn := by rw [hqv]; exact hcol
                    simp [pawnClear, hqc, hqv, hcol]
          · rw [if_neg (fun hc => hd hc.2)] at hex
            cases hmv : movePieceB b frm tgt with
            | error e =>
                simp only [hmv] at hex
                have := congrArg Prod.snd hex
                simp at this
            | ok b2 =>
                simp only [hmv] at hex
                rw [if_pos (Or.inl hkind)] at hex
                obtain ⟨q, hq2, htn, hne2, hb2⟩ := movePieceB_ok _ b2 frm tgt hmv
                have hqv : q = p := by
                  rw [hfp] at hq2
                  exact (Option.some.inj hq2).symm
                have hb2t : b2.squares tgt = some q := by
                  rw [hb2, squares_setSquare]
                  simp
                simp only [hb2t] at hex
                cases het : endTurn
                    (b2.setSquare tgt (some { q with hasMoved := true })) with
                | error e =>
                    simp only [het] at hex
                    have := congrArg Prod.snd hex
                    simp at this
                | ok b4 =>
                    simp only [het] at hex
                    have hb' : b4 = b' := congrArg Prod.fst hex
                    obtain ⟨hsq4, _, _, _⟩ := endTurn_char _ b4 het
                    have h3t : (b2.setSquare tgt
                        (some { q with hasMoved := true })).squares tgt =
                        some { q with hasMoved := true } := by
                      rw [squares_setSquare]
                      simp
                    have hturn3 : (b2.setSquare tgt
                        (some { q with hasMoved := true })).turn = b.turn := by
                      rw [turn_setSquare, hb2, turn_setSquare, turn_setSquare]
                    rw [← hb', hsq4 tgt htv, h3t, hturn3, if_neg hd]
                    have hqc : q.color = b.turn := by rw [hqv]; exact hcol
                    simp [pawnClear, hqc, hqv, hcol]

lemma moveRay_nonsliding (b : Board) (fd rd : Int) (n : Nat) (cur : Pos)
    (hb : validPos (cur.1 + fd, cur.2 + rd))
    (he : b.squares (cur.1 + fd, cur.2 + rd) = none) :
    moveRay b fd rd false (n + 1) cur = [(cur.1 + fd, cur.2 + rd)] := by
  obtain ⟨h1, h2, h3, h4⟩ := hb
  simp only at h1 h2 h3 h4
  simp [moveRay, h1, h2, h3, h4, he]

lemma dirOf_cases (a : Int) : dirOf a = -1 ∨ dirOf a = 0 ∨ dirOf a = 1 := by
  unfold dirOf
  split
  · exact Or.inr (Or.inl rfl)
  · split
    · exact Or.inr (Or.inr rfl)
    · exact Or.inl rfl

lemma dirOf_eq_zero (a : Int) : dirOf a = 0 ↔ a = 0 := by
  unfold dirOf
  rcases lt_trichotomy a 0 with h | h | h
  · rw [if_neg (by omega), if_neg (by omega)]
    constructor <;> (intro hc; omega)
  · subst h; simp
  · rw [if_neg (by omega), if_pos h]
    constructor <;> (intro hc; omega)

lemma dirOf_mul (a : Int) : (a.natAbs : Int) * dirOf a = a := by
  unfold dirOf
  rcases lt_trichotomy a 0 with h | h | h
  · rw [if_neg (by omega), if_neg (by omega)]; omega
  · subst h; simp
  · rw [if_neg (by omega), if_pos h]; omega

lemma aligned_component (a c : Int) (hal : a = 0 ∨ c = 0 ∨ a.natAbs = c.natAbs) :
    ((max a.natAbs c.natAbs : Nat) : Int) * dirOf a = a := by
  by_cases ha : a = 0
  · subst ha; simp [dirOf]
  · have hmax : max a.natAbs c.natAbs = a.natAbs := by
      rcases hal with h | h | h <;> omega
    rw [hmax, dirOf_mul]

lemma sliding_kinds (p : Piece) (hsl : p.isSlidingPiece = true) :
    p.kind = PKind.rook ∨ p.kind = PKind.bishop ∨ p.kind = PKind.queen := by
  unfold Piece.isSlidingPiece at hsl
  cases h : p.kind <;> simp [h] at hsl ⊢

lemma zero_not_in_sliding_pattern (p : Piece) (hsl : p.isSlidingPiece = true) :
    ((0 : Int), (0 : Int)) ∉ p.getCapturePattern := by
  rcases sliding_kinds p hsl with h | h | h <;>
    simp [Piece.getCapturePattern, Piece.getMovePattern, h] <;> decide

lemma slidingWalk_char (b : Board) (sq tgt : Pos) (fs rs : Int) (n : Nat)
    (hfs : fs = -1 ∨ fs = 0 ∨ fs = 1) (hrs : rs = -1 ∨ rs = 0 ∨ rs = 1)
    (hnz : ¬(fs = 0 ∧ rs = 0))
    (htgt1 : tgt.1 = sq.1 + (n : Int) * fs) (htgt2 : tgt.2 = sq.2 + (n : Int) * rs)
    (hsq : validPos sq) (htv : validPos tgt) :
    ∀ (fuel : Nat) (k : Nat), 1 ≤ k → k ≤ n → n - k < fuel →
      (slidingWalk b tgt fs rs fuel (sq.1 + (k : Int) * fs, sq.2 + (k : Int) * rs)
          = true ↔
        ∀ j : Nat, k ≤ j → j < n →
          b.squares (sq.1 + (j : Int) * fs, sq.2 + (j : Int) * rs) = none) := by
  intro fuel
  induction fuel with
  | zero => intro k _ _ hflt; exact absurd hflt (by omega)
  | succ m ih =>
      intro k hk1 hkn hflt
      by_cases hke : k = n
      · subst hke
        have h1 : sq.1 + (k : Int) * fs = tgt.1 := htgt1.symm
        have h2 : sq.2 + (k : Int) * rs = tgt.2 := htgt2.symm
        simp only [slidingWalk]
        rw [if_neg (fun hc => hc.1.elim (fun h => h h1) (fun h => h h2))]
        constructor
        · intro _ j hj1 hj2; omega
        · intro _; rfl
      · have hkn' : k < n := by omega
        simp only [slidingWalk]
        have hguard : ((sq.1 + (k : Int) * fs ≠ tgt.1 ∨ sq.2 + (k : Int) * rs ≠ tgt.2) ∧
            (0 < sq.2 + (k : Int) * rs ∧ sq.2 + (k : Int) * rs < 9) ∧
            (96 < sq.1 + (k : Int) * fs ∧ sq.1 + (k : Int) * fs < 105)) := by
          have hsq' := hsq
          have htv' := htv
          unfold validPos at hsq' htv'
          obtain ⟨a1, a2, a3, a4⟩ := hsq'
          obtain ⟨b1, b2, b3, b4⟩ := htv'
          constructor
          · by_cases hf0 : fs = 0
            · right
              have hr0 : rs ≠ 0 := fun h => hnz ⟨hf0, h⟩
              rw [htgt2]
              intro hcc
              rcases hrs with rfl | rfl | rfl <;> omega
            · left
              rw [htgt1]
              intro hcc
              rcases hfs with rfl | rfl | rfl <;> omega
          · refine ⟨⟨?_, ?_⟩, ?_, ?_⟩ <;>
              (rcases hfs with rfl | rfl | rfl <;> rcases hrs with rfl | rfl | rfl <;> omega)
        rw [if_pos hguard]
        cases hocc : b.squares (sq.1 + (k : Int) * fs, sq.2 + (k : Int) * rs) with
        | some q =>
            rw [if_pos (show (some q).isSome = true from rfl)]
            constructor
            · intro h; cases h
            · intro hall
              rw [hall k le_rfl hkn'] at hocc
              cases hocc
        | none =>
            rw [if_neg (show ¬(none : Option Piece).isSome = true from Bool.false_ne_true)]
            have e1 : sq.1 + (k : Int) * fs + fs
                = sq.1 + ((k + 1 : Nat) : Int) * fs := by push_cast; ring
            have e2 : sq.2 + (k : Int) * rs + rs
                = sq.2 + ((k + 1 : Nat) : Int) * rs := by push_cast; ring
            rw [e1, e2, ih (k + 1) (by omega) (by omega) (by omega)]
            constructor
            · intro h j hj1 hj2
              rcases eq_or_lt_of_le hj1 with rfl | hlt
              · exact hocc
              · exact h j (by omega) hj2
            · intro h j hj1 hj2
              exact h j (by omega) hj2

lemma splitOnChar_no_sep (sep : Char) :
    ∀ l : List Char, sep ∉ l → splitOnChar sep l = [l] := by
  intro l
  induction l with
  | nil => intro _; rfl
  | cons c t ih =>
      intro h
      have hc : c ≠ sep := fun e => h (e ▸ List.mem_cons_self c t)
      have ht : sep ∉ t := fun m => h (List.mem_cons_of_mem c m)
      simp only [splitOnChar, ih ht]
      rw [if_neg hc]

lemma splitOnChar_sandwich (sep : Char) (l2 : List Char) (h2 : sep ∉ l2) :
    ∀ l1 : List Char, sep ∉ l1 →
      splitOnChar sep (l1 ++ sep :: l2) = [l1, l2] := by
  intro l1
  induction l1 with
  | nil =>
      intro _
      simp only [List.nil_append, splitOnChar, splitOnChar_no_sep sep l2 h2]
      simp
  | cons c t ih =>
      intro h1
      have hc : c ≠ sep := fun e => h1 (e ▸ List.mem_cons_self c t)
      have ht : sep ∉ t := fun m => h1 (List.mem_cons_of_mem c m)
      simp only [List.cons_append, splitOnChar, List.append_eq, ih ht]
      rw [if_neg hc]

lemma file_char_facts (v : Int) (h1 : 97 ≤ v) (h2 : v ≤ 104) :
    (Char.ofNat v.toNat).toNat = v.toNat ∧ (Char.ofNat v.toNat).isLower = true := by
  interval_cases v <;> exact ⟨by decide, by decide⟩

lemma rank_char_facts (v : Int) (h1 : 1 ≤ v) (h2 : v ≤ 8) :
    (Char.ofNat (v + 48).toNat).toNat = (v + 48).toNat := by
  interval_cases v <;> decide

lemma sqChar_file (v : Int) (h1 : 97 ≤ v) (h2 : v ≤ 104) :
    sqChar (Char.ofNat v.toNat) := by
  right
  rw [(file_char_facts v h1 h2).1]
  omega

lemma sqChar_rank (v : Int) (h1 : 1 ≤ v) (h2 : v ≤ 8) :
    sqChar (Char.ofNat (v + 48).toNat) := by
  left
  rw [rank_char_facts v h1 h2]
  omega

lemma sqChar_mem (c : Char) (h : sqChar c) :
    c ∈ (['1', '2', '3', '4', '5', '6', '7', '8',
          'a', 'b', 'c', 'd', 'e', 'f', 'g', 'h'] : List Char) := by
  have hc : c = Char.ofNat c.toNat := (Char.ofNat_toNat c).symm
  rcases h with ⟨h1, h2⟩ | ⟨h1, h2⟩ <;>
    (generalize hg : c.toNat = n at h1 h2 hc; interval_cases n <;> (rw [hc]; decide))

lemma sqChar_facts (c : Char) (h : sqChar c) :
    c ≠ 'x' ∧ c ≠ '+' ∧ c ≠ '#' := by
  have hm := sqChar_mem c h
  fin_cases hm <;> exact ⟨by decide, by decide, by decide⟩

lemma strIsSquare_shape (s : List Char) (h : strIsSquare s = true) :
    ∃ c1 c2, s = [c1, c2] ∧ validPos (strToPos s) ∧
      97 ≤ c1.toNat ∧ c1.toNat ≤ 104 ∧ 49 ≤ c2.toNat ∧ c2.toNat ≤ 56 := by
  match s with
  | [] => exact absurd h Bool.false_ne_true
  | [c] => exact absurd h Bool.false_ne_true
  | c1 :: c2 :: c3 :: r => exact absurd h Bool.false_ne_true
  | [c1, c2] =>
      have h' : validPos (strToPos [c1, c2]) := of_decide_eq_true h
      refine ⟨c1, c2, rfl, h', ?_, ?_, ?_, ?_⟩ <;>
        · have h'' := h'
          unfold validPos at h''
          simp only [strToPos] at h''
          omega

lemma posToStr_strToPos (s : List Char) (h : strIsSquare s = true) :
    posToStr (strToPos s) = s := by
  obtain ⟨c1, c2, rfl, hv, h1, h2, h3, h4⟩ := strIsSquare_shape s h
  simp only [strToPos, posToStr]
  have e1 : ((c1.toNat : Int)).toNat = c1.toNat := by omega
  have e2 : ((c2.toNat : Int) - 48 + 48).toNat = c2.toNat := by omega
  rw [e1, e2, Char.ofNat_toNat, Char.ofNat_toNat]

lemma pawn_disamb (b : Board) (p : Piece) (frm tgtPos : Pos) (cap : Bool)
    (d : List Char) (hk : p.kind = PKind.pawn)
    (h : getDisambiguation b p frm tgtPos cap = .ok d) :
    d = if cap = true then [Char.ofNat frm.1.toNat] else [] := by
  unfold getDisambiguation at h
  by_cases hc : cap = true
  · rw [if_pos ⟨hk, hc⟩] at h
    rw [if_pos hc]
    exact (Except.ok.inj h).symm
  · rw [if_neg (fun hh => hc hh.2), if_neg (not_not_intro hk)] at h
    rw [if_neg hc]
    exact (Except.ok.inj h).symm

lemma resolveAmbiguity_chars (frm : Pos) (amb : List Pos) (hv : validPos frm) :
    ∀ c ∈ resolveAmbiguity frm amb, sqChar c := by
  have hv' := hv
  unfold validPos at hv'
  obtain ⟨v1, v2, v3, v4⟩ := hv'
  intro c hc
  unfold resolveAmbiguity at hc
  split at hc
  · simp at hc
    subst hc
    exact sqChar_file frm.1 v1 v2
  · split at hc
    · simp at hc
      subst hc
      exact sqChar_rank frm.2 v3 v4
    · unfold posToStr at hc
      simp at hc
      rcases hc with rfl | rfl
      · exact sqChar_file frm.1 v1 v2
      · exact sqChar_rank frm.2 v3 v4

lemma disamb_chars (b : Board) (p : Piece) (frm tgtPos : Pos) (cap : Bool)
    (d : List Char) (hv : validPos frm)
    (h : getDisambiguation b p frm tgtPos cap = .ok d) :
    ∀ c ∈ d, sqChar c := by
  have hv' := hv
  unfold validPos at hv'
  obtain ⟨v1, v2, v3, v4⟩ := hv'
  unfold getDisambiguation at h
  split at h
  · have hdd := (Except.ok.inj h).symm
    subst hdd
    intro c hc
    simp at hc
    subst hc
    exact sqChar_file frm.1 v1 v2
  · split at h
    · rcases hfa : findAmbiguous b p frm tgtPos with e | amb
      all_goals rw [hfa] at h
      · simp at h
      · simp only [Except.ok.injEq] at h
        subst h
        intro c hc
        split at hc
        · exact resolveAmbiguity_chars frm amb hv c hc
        · simp at hc
    · have hdd := (Except.ok.inj h).symm
      subst hdd
      intro c hc
      simp at hc

lemma algParts_build (pre t2 : List Char) (cap : Bool)
    (hpre : 'x' ∉ pre) (ht2 : 'x' ∉ t2) (hlen : t2.length = 2)
    (hplus : ∀ a ∈ pre ++ (if cap = true then ['x'] else []) ++ t2,
      a ≠ '+' ∧ a ≠ '#') :
    algParts (pre ++ (if cap = true then ['x'] else []) ++ t2) = (pre, t2) := by
  cases cap
  · have hre : pre ++ (if (false : Bool) = true then ['x'] else []) ++ t2
        = pre ++ t2 := by simp
    rw [hre] at hplus ⊢
    have hfil : algNota (pre ++ t2) = pre ++ t2 := by
      unfold algNota
      refine List.filter_eq_self.mpr ?_
      intro a ha
      exact decide_eq_true (hplus a ha)
    simp only [algParts]
    rw [hfil]
    rw [if_neg (fun hm => (List.mem_append.mp hm).elim hpre ht2)]
    have hl2 : (pre ++ t2).length - 2 = pre.length := by
      rw [List.length_append, hlen]
      omega
    rw [hl2, List.take_left, List.drop_left]
  · have hre : pre ++ (if (true : Bool) = true then ['x'] else []) ++ t2
        = pre ++ 'x' :: t2 := by simp
    rw [hre] at hplus ⊢
    have hfil : algNota (pre ++ 'x' :: t2) = pre ++ 'x' :: t2 := by
      unfold algNota
      refine List.filter_eq_self.mpr ?_
      intro a ha
      exact decide_eq_true (hplus a ha)
    simp only [algParts]
    rw [hfil]
    rw [if_pos (by simp)]
    rw [splitOnChar_sandwich 'x' t2 ht2 pre hpre]

lemma buildAlgebraic_ok (b : Board) (f t out : List Char) (p : Piece)
    (hp : b.squares (strToPos f) = some p)
    (hcast : (if p.kind = PKind.king then checkCastlingStr f t else none) = none)
    (h : buildAlgebraic b f t = .ok out) :
    strIsSquare f = true ∧ strIsSquare t = true ∧
    ∃ d cap, getDisambiguation b p (strToPos f) (strToPos t) cap = .ok d ∧
      out = symbolOf p.kind ++ d ++ (if cap = true then ['x'] else []) ++ t := by
  unfold buildAlgebraic at h
  by_cases hsq : strIsSquare f = true ∧ strIsSquare t = true
  · rw [if_pos hsq] at h
    simp only [hp] at h
    simp only [hcast] at h
    rcases hd : getDisambiguation b p (strToPos f) (strToPos t)
        (if p.kind = PKind.pawn ∧ (b.squares (strToPos t)).isSome = false ∧
            ((strToPos f).1 - (strToPos t).1).natAbs = 1 then true
          else (b.squares (strToPos t)).isSome) with e | d
    · rw [hd] at h
      simp at h
    · rw [hd] at h
      exact ⟨hsq.1, hsq.2, d, _, hd, (Except.ok.inj h).symm⟩
  · rw [if_neg hsq] at h
    simp at h

end Lemmas

section Theorems

open PColor PKind

/- ======================================================================
C1.  `execute()` mutates only when `validate()` fully succeeds; a
validation exception propagates unchanged and leaves the board untouched.
====================================================================== -/

/-- C1: for every ChessMove, ChessCapture and ChessCastle on any board, if
`validate()` signals an error then `execute()` propagates exactly that
error and returns the board in its original state; and if `validate()`
returns `False` (the silent check-rule failure) then `execute()` performs
no mutation and signals nothing.  Mutation happens only on a fully
successful validation. -/
theorem c1_execute_only_after_valid (b : Board) (frm tgt : Pos) (e : Err) :
    (validateMove b frm tgt = .error e → executeMove b frm tgt = (b, some e)) ∧
    (validateMove b frm tgt = .ok false → executeMove b frm tgt = (b, none)) ∧
    (validateCapture b frm tgt = .error e → executeCapture b frm tgt = (b, some e)) ∧
    (validateCapture b frm tgt = .ok false → executeCapture b frm tgt = (b, none)) ∧
    (validateCastle b frm tgt = .error e → executeCastle b frm tgt = (b, some e)) ∧
    (validateCastle b frm tgt = .ok false → executeCastle b frm tgt = (b, none)) := by
  refine ⟨?_, ?_, ?_, ?_, ?_, ?_⟩ <;> intro h <;>
    simp only [executeMove, executeCapture, executeCastle, h]

/-- Witness for C1: on a board holding only a light rook on a1 with light
to move, a same-square ChessMove request a1→a1, a capture of the friendly
rook b1→a1 (after placing a light knight on b1), and a castle by the rook
a1→c1 each raise their specific exception, and execute leaves the board
exactly as it was. -/
theorem c1_witness :
    executeMove (mkBoard [(((97 : Int), (1 : Int)), pc .rook .light)] .light)
        (97, 1) (97, 1) =
      (mkBoard [(((97 : Int), (1 : Int)), pc .rook .light)] .light,
        some .cannotMoveToOriginSquare) ∧
    executeCapture (mkBoard [(((97 : Int), (1 : Int)), pc .rook .light),
          (((98 : Int), (1 : Int)), pc .knight .light)] .light)
        (98, 1) (97, 1) =
      (mkBoard [(((97 : Int), (1 : Int)), pc .rook .light),
          (((98 : Int), (1 : Int)), pc .knight .light)] .light,
        some .cannotCaptureFriendlyPiece) ∧
    executeCastle (mkBoard [(((97 : Int), (1 : Int)), pc .rook .light)] .light)
        (97, 1) (99, 1) =
      (mkBoard [(((97 : Int), (1 : Int)), pc .rook .light)] .light,
        some .cannotCastleWithNonKing) :=
  ⟨(c1_execute_only_after_valid _ _ _ _).1 (by decide),
   (c1_execute_only_after_valid _ _ _ _).2.2.1 (by decide),
   (c1_execute_only_after_valid _ _ _ _).2.2.2.2.1 (by decide)⟩

/- ======================================================================
C2.  Pawn attack detection in `is_in_check_from`.
====================================================================== -/

/-- C2 (code bug): the claim says a pawn attacks a target iff the exact
offset is one of the two diagonal-forward capture vectors, and in
particular never a lateral neighbor.  But `is_in_check_from` tests the
offset against the pawn's full `get_capture_pattern()`, which includes the
lateral en-passant vectors `(±1, 0)`: on a board whose only piece is a
light pawn on b4, the square a4 — reachable from the pawn by neither
diagonal-forward vector — is reported as attacked by light. -/
theorem c2_pawn_lateral_attack :
    isInCheckFrom (mkBoard [(((98 : Int), (4 : Int)), pc .pawn .light)] .light)
        (97, 4) .light = true ∧
    (∀ v ∈ [((-1 : Int), (1 : Int)), ((1 : Int), (1 : Int))],
        ((97 : Int), (4 : Int)) ≠ (98 + v.1, 4 + v.2)) ∧
    (pc .pawn .light).direction = 1 := by
  refine ⟨by decide, by decide, by decide⟩

/- ======================================================================
C3.  Light kingside castle validation.
====================================================================== -/

/-- C3 (code bug): the claim requires both f1 and g1 to be empty for
`e1g1` to validate, with a specific castle error on any single violation.
On a board with an unmoved light King on e1, an unmoved light Rook on h1
and a light Knight on g1 (so *only* the "g1 empty" condition is violated,
nothing attacks any square and light is to move), `validate()` nonetheless
succeeds — the kingside branch of `validate_other_constraints` only tests
f1 for occupancy — and `execute()` then crashes with a `ValueError` when
`place` hits the occupied g1. -/
theorem c3_kingside_castle_ignores_g1 :
    validateCastle (mkBoard [(((101 : Int), (1 : Int)), pc .king .light),
        (((104 : Int), (1 : Int)), pc .rook .light),
        (((103 : Int), (1 : Int)), pc .knight .light)] .light)
      (101, 1) (103, 1) = .ok true ∧
    ((mkBoard [(((101 : Int), (1 : Int)), pc .king .light),
        (((104 : Int), (1 : Int)), pc .rook .light),
        (((103 : Int), (1 : Int)), pc .knight .light)] .light).squares
      (103, 1)).isSome = true ∧
    (executeCastle (mkBoard [(((101 : Int), (1 : Int)), pc .king .light),
        (((104 : Int), (1 : Int)), pc .rook .light),
        (((103 : Int), (1 : Int)), pc .knight .light)] .light)
      (101, 1) (103, 1)).2 = some .valueError := by
  refine ⟨by decide, by decide, by decide⟩

/- ======================================================================
C5.  King moves onto an attacked square: how the rejection is signalled.
====================================================================== -/

/-- C5 (code bug): the claim says a King move onto an attacked square
fails *at the check-rule step* and *signals a check-violation error*.  In
the source, `validate_check_rules` returns a bare `False` and never raises
(the `ChessCannotMoveIntoCheckException` leaf exists but is never used);
the rejection actually happens at step 3 with the movement-pattern error,
because the discovered-check filter already removed the destination from
the legal moves.  Concretely: light King on e1, dark Rook on f8, light to
move; f1 is attacked by dark, `validate_check_rules` evaluates to `False`
without signalling, and `validate()` raises
`ChessCannotMoveOutsideMovementPatternException`. -/
theorem c5_check_rule_silent :
    isInCheckFrom (mkBoard [(((101 : Int), (1 : Int)), pc .king .light),
        (((102 : Int), (8 : Int)), pc .rook .dark)] .light)
      (102, 1) .dark = true ∧
    validateCheckRules (mkBoard [(((101 : Int), (1 : Int)), pc .king .light),
        (((102 : Int), (8 : Int)), pc .rook .dark)] .light)
      (101, 1) (102, 1) = false ∧
    validateMove (mkBoard [(((101 : Int), (1 : Int)), pc .king .light),
        (((102 : Int), (8 : Int)), pc .rook .dark)] .light)
      (101, 1) (102, 1) = .error .cannotMoveOutsideMovementPattern := by
  refine ⟨by decide, by decide, by decide⟩

/- ======================================================================
C9.  The has-been-in-check flag.
====================================================================== -/

/-- C9 (code bug): the claim says `end_turn` sets a King's
`has_been_in_check` flag whenever the King's square is attacked by the
side that just moved.  The source calls `piece.raise_check_flag()`, but no
such method is defined anywhere in `chess_piece.py`, so the call raises
`AttributeError` instead and no code path ever sets the flag.
Concretely: with a light Rook on e1 giving check to the dark King on e8,
`end_turn()` raises `AttributeError` and there is no resulting board. -/
theorem c9_raise_check_flag_missing :
    isInCheckFrom (mkBoard [(((101 : Int), (1 : Int)), pc .rook .light),
        (((101 : Int), (8 : Int)), pc .king .dark)] .light)
      (101, 8) .light = true ∧
    errOf (endTurn (mkBoard [(((101 : Int), (1 : Int)), pc .rook .light),
        (((101 : Int), (8 : Int)), pc .king .dark)] .light)) =
      some .attributeError ∧
    (∀ p : Piece, raiseCheckFlag p = .error .attributeError) := by
  refine ⟨by decide, by decide, fun p => rfl⟩

/- ======================================================================
C8.  What one call to `end_turn()` does.
====================================================================== -/

/-- C8 counterexample: the claim quantifies over *every* board state, but
on a board where the side that just moved attacks the opposing King (here
a light Queen on d1 checking the dark King on d8, light to move) a call to
`end_turn()` raises `AttributeError` (via the missing `raise_check_flag`)
and produces no successor state — in particular it does not flip the turn,
advance the counter or store a snapshot. -/
theorem c8_counterexample :
    errOf (endTurn (mkBoard [(((100 : Int), (1 : Int)), pc .queen .light),
        (((100 : Int), (8 : Int)), pc .king .dark)] .light)) =
      some .attributeError ∧
    ∀ b', endTurn (mkBoard [(((100 : Int), (1 : Int)), pc .queen .light),
        (((100 : Int), (8 : Int)), pc .king .dark)] .light) ≠ .ok b' := by
  refine ⟨by decide, fun b' hb' => ?_⟩
  have h1 : errOf (endTurn (mkBoard [(((100 : Int), (1 : Int)), pc .queen .light),
      (((100 : Int), (8 : Int)), pc .king .dark)] .light)) =
      some Err.attributeError := by decide
  rw [hb'] at h1
  exact Option.noConfusion h1

/-- C8 (amended): on every board state where the side to move does not
attack any opposing King (so that the missing-`raise_check_flag` crash of
the counterexample is not triggered), one call to `end_turn()` succeeds
and: clears the `vulnerable` flag of every pawn belonging to the opponent
of the side that just moved, increments the move counter exactly when that
side is light, stores a snapshot of the (flag-cleared, counter-advanced)
board in the history keyed by `(counter, color-that-just-moved)` — the
snapshot's own history being the pre-insertion map — and flips the turn. -/
theorem c8_end_turn_effects (b : Board)
    (hno : ∀ k ∈ squaresList, ∀ p, b.squares k = some p → p.kind = .king →
        p.color ≠ b.turn → isInCheckFrom b k b.turn = false) :
    ∃ b', endTurn b = .ok b' ∧
      (∀ k ∈ squaresList, ∀ p, b.squares k = some p → p.kind = .pawn →
          p.color ≠ b.turn → b'.squares k = some { p with vulnerable := false }) ∧
      b'.turn = b.turn.other ∧
      b'.turns = (if b.turn = .light then b.turns + 1 else b.turns) ∧
      (∃ snap, b'.gameStates = ((b'.turns, b.turn), snap) :: b.gameStates ∧
        snap.turn = b.turn ∧ snap.turns = b'.turns ∧
        snap.gameStates = b.gameStates ∧
        (∀ k ∈ squaresList, snap.squares k = pawnClear b.turn (b.squares k))) := by
  have hok : ∃ b', endTurn b = .ok b' := by
    obtain ⟨b1, hb1⟩ := foldlM_endTurnStep_ok squaresList squaresList_nodup b hno
    exact ⟨_, by unfold endTurn; rw [hb1]; rfl⟩
  obtain ⟨b', hb'⟩ := hok
  obtain ⟨hsq, hturn, hturns, snap, hgs, hst, hsn, hsg, hss⟩ := endTurn_char b b' hb'
  refine ⟨b', hb', ?_, hturn, hturns, snap, hgs, hst, ?_, hsg, hss⟩
  · intro k hk p hp hkind hcol
    rw [hsq k hk, hp]
    simp [pawnClear, hkind, hcol]
  · rw [hsn, hturns]

/- ======================================================================
C4.  The en-passant vulnerability window.
====================================================================== -/

/-- C4 counterexample: the claim says a lateral en-passant capture
attempted outside the window is rejected with the
capture-outside-capture-pattern error — for *every* board.  But with a
light pawn on d5, a non-vulnerable dark pawn on e5 (outside the window),
a dark Rook on c5 and a dark Knight on c6, the attempt d5×e5 instead dies
with a raw `ValueError`: the pawn's *mirrored* lateral vector collects the
c5 Rook as a capture candidate, and its discovered-check simulation (which
treats every same-rank pawn "capture" as en passant) tries to move the
pawn onto the occupied c6. -/
theorem c4_counterexample :
    (mkBoard [(((100 : Int), (5 : Int)), pc .pawn .light),
        (((101 : Int), (5 : Int)), pc .pawn .dark),
        (((99 : Int), (5 : Int)), pc .rook .dark),
        (((99 : Int), (6 : Int)), pc .knight .dark)] .light).squares (101, 5) =
      some (pc .pawn .dark) ∧
    (pc .pawn .dark).vulnerable = false ∧
    validateCapture (mkBoard [(((100 : Int), (5 : Int)), pc .pawn .light),
        (((101 : Int), (5 : Int)), pc .pawn .dark),
        (((99 : Int), (5 : Int)), pc .rook .dark),
        (((99 : Int), (6 : Int)), pc .knight .dark)] .light)
      (100, 5) (101, 5) = .error .valueError ∧
    Err.valueError ≠ Err.cannotCaptureOutsideCapturePattern := by
  refine ⟨by decide, by decide, by decide, by decide⟩

/-- C4 (amended): the vulnerability window behaves as claimed —
(1) a two-square pawn advance, executed successfully, leaves the pawn on
its destination with the `vulnerable` flag raised (the mover's own
`end_turn` does not clear it);
(2) any other successful pawn move leaves the flag exactly as it was
(only the double step raises it);
(3) when the *opponent's* half-turn ends, `end_turn` clears the flag of
every pawn of the side that did not just move;
(4) a lateral en-passant `ChessCapture` against a pawn whose flag is
down is rejected with the capture-outside-capture-pattern error —
*provided* the capturing pawn's opposite lateral neighbor is not an enemy
non-pawn whose simulated en-passant landing square is occupied (in that
corner case the code instead crashes with the `ValueError` of the
counterexample). -/
theorem c4_vulnerable_window :
    (∀ (b : Board) (frm tgt : Pos) (p : Piece) (b' : Board),
      b.squares frm = some p → p.kind = .pawn → p.color = b.turn →
      tgt ∈ squaresList → (frm.2 - tgt.2).natAbs = 2 →
      executeMove b frm tgt = (b', none) →
      b'.squares tgt = some { p with vulnerable := true, hasMoved := true }) ∧
    (∀ (b : Board) (frm tgt : Pos) (p : Piece) (b' : Board),
      b.squares frm = some p → p.kind = .pawn → p.color = b.turn →
      tgt ∈ squaresList → (frm.2 - tgt.2).natAbs ≠ 2 →
      executeMove b frm tgt = (b', none) →
      b'.squares tgt = some { p with hasMoved := true }) ∧
    (∀ (b b' : Board) (k : Pos) (p : Piece),
      endTurn b = .ok b' → k ∈ squaresList → b.squares k = some p →
      p.kind = .pawn → p.color ≠ b.turn →
      b'.squares k = some { p with vulnerable := false }) ∧
    (∀ (b : Board) (f r δ : Int) (cp cq : Piece),
      (δ = 1 ∨ δ = -1) →
      b.squares (f, r) = some cp → cp.kind = .pawn → cp.color = b.turn →
      b.squares (f + δ, r) = some cq → cq.kind = .pawn →
      cq.color ≠ cp.color → cq.vulnerable = false →
      validPos (f, r) → validPos (f + δ, r) →
      1 ≤ r + cp.direction → r + cp.direction ≤ 8 →
      (∀ q, b.squares (f - δ, r) = some q → q.color ≠ cp.color →
        q.kind ≠ .pawn → b.squares (f - δ, r + cp.direction) = none) →
      validateCapture b (f, r) (f + δ, r) =
        .error .cannotCaptureOutsideCapturePattern) := by
  refine ⟨?_, ?_, ?_, ?_⟩
  · intro b frm tgt p b' h1 h2 h3 h4 hd hex
    have h := executeMove_pawn_flag b frm tgt p b' h1 h2 h3 h4 hex
    rw [if_pos hd] at h
    exact h
  · intro b frm tgt p b' h1 h2 h3 h4 hd hex
    have h := executeMove_pawn_flag b frm tgt p b' h1 h2 h3 h4 hex
    rw [if_neg hd] at h
    exact h
  · intro b b' k p het hk hp hkind hcol
    obtain ⟨hsq, _, _, _⟩ := endTurn_char b b' het
    rw [hsq k hk, hp]
    simp [pawnClear, hkind, hcol]
  · intro b f r δ cp cq hδ hfp hcpk hcol htp hcqk hene hvuln hvf hvt
      hrank1 hrank2 hmir
    exact lateral_capture_rejected b f r δ cp cq hδ hfp hcpk hcol htp hcqk
      hene hvuln hvf hvt hrank1 hrank2 hmir

/-- Witness for C4: with a light pawn on d5 and a non-vulnerable dark pawn
on e5 (and nothing else, so the mirror proviso holds vacuously), light to
move, the lateral capture d5→e5 is rejected with exactly the
capture-outside-capture-pattern error. -/
theorem c4_witness :
    validateCapture (mkBoard [(((100 : Int), (5 : Int)), pc .pawn .light),
        (((101 : Int), (5 : Int)), pc .pawn .dark)] .light)
      (100, 5) (101, 5) = .error .cannotCaptureOutsideCapturePattern :=
  c4_vulnerable_window.2.2.2
    (mkBoard [(((100 : Int), (5 : Int)), pc .pawn .light),
      (((101 : Int), (5 : Int)), pc .pawn .dark)] .light)
    100 5 1 (pc .pawn .light) (pc .pawn .dark) (Or.inl rfl)
    (by decide) (by decide) (by decide) (by decide) (by decide) (by decide)
    (by decide) (by decide) (by decide) (by decide) (by decide)
    (fun q hq => by
      rw [show (mkBoard [(((100 : Int), (5 : Int)), pc .pawn .light),
        (((101 : Int), (5 : Int)), pc .pawn .dark)] .light).squares
          ((100 : Int) - 1, (5 : Int)) = none from by decide] at hq
      exact fun _ _ => Option.noConfusion hq)

/- ======================================================================
C10.  The pawn double step never looks at the intermediate square.
====================================================================== -/

/-- C10: for an unmoved pawn, `get_legal_moves` applies the two-square
advance vector `(0, 2·direction)` as a single non-sliding step: whenever
the square two ranks ahead is on the board and empty and the move is not
a discovered check, it is a legal move — with *no hypothesis whatsoever*
on the occupancy of the square one rank ahead, which this vector never
examines. -/
theorem c10_pawn_double_step_ignores_intermediate (b : Board) (f r : Int)
    (p : Piece) (hfp : b.squares (f, r) = some p) (hkind : p.kind = .pawn)
    (hmvd : p.hasMoved = false) (hvf : validPos (f, r))
    (hvt : validPos (f, r + 2 * p.direction))
    (hempty : b.squares (f, r + 2 * p.direction) = none)
    (hdc : isDiscoveredCheck b (f, r) (f, r + 2 * p.direction) false = .ok false) :
    ∃ l, getLegalMoves b (f, r) = .ok l ∧ (f, r + 2 * p.direction) ∈ l := by
  have hpat : p.getMovePattern = [(0, p.direction), (0, 2 * p.direction)] := by
    simp [Piece.getMovePattern, hkind, hmvd]
  have hsl : p.isSlidingPiece = false := by
    simp [Piece.isSlidingPiece, hkind]
  have hpair : (((f, r) : Pos).1 + 0, ((f, r) : Pos).2 + 2 * p.direction) =
      ((f, r + 2 * p.direction) : Pos) := by simp
  have hray2 : moveRay b 0 (2 * p.direction) false 32 (f, r) =
      [(f, r + 2 * p.direction)] := by
    rw [show (32 : Nat) = 31 + 1 from rfl,
      moveRay_nonsliding b 0 (2 * p.direction) 31 (f, r)
        (hpair ▸ hvt) (hpair ▸ hempty), hpair]
  have hall : ∀ x ∈ (moveRay b 0 p.direction false 32 (f, r) ++
      [(f, r + 2 * p.direction)]).dedup,
      ∃ v, isDiscoveredCheck b (f, r) x false = .ok v := by
    intro x hx
    rcases List.mem_append.mp (List.mem_dedup.mp hx) with hx1 | hx2
    · obtain ⟨hvx, hex⟩ := moveRay_mem b 0 p.direction false 32 (f, r) x hx1
      exact discoveredCheck_move_ok b (f, r) x p hvf hvx hfp hex
    · rw [List.mem_singleton.mp hx2]
      exact discoveredCheck_move_ok b (f, r) _ p hvf hvt hfp hempty
  obtain ⟨res, hres, _, hmem, _⟩ :=
    foldlM_dcfilter b (f, r) false _ hall []
  have hlm : getLegalMoves b (f, r) =
      ((moveRay b 0 p.direction false 32 (f, r) ++
        [(f, r + 2 * p.direction)]).dedup.foldlM (fun acc m => do
          let dc ← isDiscoveredCheck b (f, r) m false
          pure (if ¬ dc then acc ++ [m] else acc)) [] >>=
        fun legal => pure legal.dedup) := by
    unfold getLegalMoves
    rw [if_neg (not_not_intro hvf)]
    simp only [hfp, hpat, hsl, List.foldl_cons, List.foldl_nil, List.nil_append]
    rw [hray2]
  rw [hres] at hlm
  refine ⟨res.dedup, hlm.trans rfl, ?_⟩
  exact List.mem_dedup.mpr
    (hmem _ (List.mem_dedup.mpr (List.mem_append_right _ (List.mem_singleton.mpr rfl))) hdc)

/-- Witness for C10: a light pawn on e2 that has not moved, with a light
knight *blocking* e3 and e4 empty, still gets e4 as a legal move. -/
theorem c10_witness :
    ∃ l, getLegalMoves (mkBoard [(((101 : Int), (2 : Int)), pc .pawn .light),
        (((101 : Int), (3 : Int)), pc .knight .light)] .light) (101, 2) = .ok l ∧
      ((101 : Int), (2 : Int) + 2 * (pc .pawn .light).direction) ∈ l := by
  have h := c10_pawn_double_step_ignores_intermediate
    (mkBoard [(((101 : Int), (2 : Int)), pc .pawn .light),
      (((101 : Int), (3 : Int)), pc .knight .light)] .light)
    101 2 (pc .pawn .light) (by decide) (by decide) (by decide) (by decide)
    (by decide) (by decide) (by decide)
  exact h

/-- Witness for C8: the empty board with light to move satisfies the
no-king-in-check hypothesis, and `end_turn()` on it succeeds with all the
claimed effects. -/
theorem c8_witness :
    ∃ b', endTurn (mkBoard [] .light) = .ok b' ∧
      (∀ k ∈ squaresList, ∀ p, (mkBoard [] .light).squares k = some p →
          p.kind = .pawn → p.color ≠ (mkBoard [] .light).turn →
          b'.squares k = some { p with vulnerable := false }) ∧
      b'.turn = (mkBoard [] .light).turn.other ∧
      b'.turns = (if (mkBoard [] .light).turn = .light then
        (mkBoard [] .light).turns + 1 else (mkBoard [] .light).turns) ∧
      (∃ snap, b'.gameStates =
          ((b'.turns, (mkBoard [] .light).turn), snap) :: (mkBoard [] .light).gameStates ∧
        snap.turn = (mkBoard [] .light).turn ∧ snap.turns = b'.turns ∧
        snap.gameStates = (mkBoard [] .light).gameStates ∧
        (∀ k ∈ squaresList, snap.squares k =
          pawnClear (mkBoard [] .light).turn ((mkBoard [] .light).squares k))) :=
  c8_end_turn_effects (mkBoard [] .light)
    (fun _ _ p hp _ _ => by simp [mkBoard, Board.squares] at hp)

/-- C6: for every board, every on-board origin and target square, and every
sliding piece (Rook, Bishop, Queen), the per-piece attack predicate used by
`is_in_check_from` holds exactly when the offset's unit direction is in the
piece's capture pattern, the offset lies on a true rank, file or diagonal
line, and every intervening square is empty; and `is_in_check_from` reports
an attack exactly when some square holds a piece of the attacking color
whose per-piece predicate holds. -/
theorem c6_sliding_attack_spec (b : Board) (sq tgt : Pos) (p : Piece)
    (hsq : validPos sq) (htv : validPos tgt) (hsl : p.isSlidingPiece = true) :
    (pieceAttacks b sq p tgt = true ↔ specSlidingAttack b sq tgt p) ∧
    (∀ c, isInCheckFrom b tgt c = true ↔
      ∃ s ∈ squaresList, ∃ q, b.squares s = some q ∧ q.color = c ∧
        pieceAttacks b s q tgt = true) := by
  have hnp : ¬ p.kind = PKind.pawn := by
    intro h
    simp [Piece.isSlidingPiece, h] at hsl
  constructor
  · simp only [pieceAttacks]
    by_cases h0 : tgt.1 - sq.1 = 0 ∧ tgt.2 - sq.2 = 0
    · rw [if_pos h0]
      constructor
      · intro h; cases h
      · intro hspec
        unfold specSlidingAttack at hspec
        obtain ⟨hmem, -, -⟩ := hspec
        rw [h0.1, h0.2, show dirOf (0 : Int) = 0 from rfl] at hmem
        exact absurd hmem (zero_not_in_sliding_pattern p hsl)
    · rw [if_neg h0, if_neg hnp]
      by_cases hdir : (dirOf (tgt.1 - sq.1), dirOf (tgt.2 - sq.2)) ∈ p.getCapturePattern
      · rw [if_pos hdir, if_neg (show ¬(¬ p.isSlidingPiece = true) from not_not_intro hsl)]
        simp only [isSlidingPathClear]
        by_cases hmis : tgt.1 - sq.1 ≠ 0 ∧ tgt.2 - sq.2 ≠ 0 ∧
            (tgt.1 - sq.1).natAbs ≠ (tgt.2 - sq.2).natAbs
        · rw [if_pos hmis]
          constructor
          · intro h; cases h
          · intro hspec
            unfold specSlidingAttack alignedOffset at hspec
            obtain ⟨-, hal, -⟩ := hspec
            rcases hal with h | h | h
            · exact absurd h hmis.1
            · exact absurd h hmis.2.1
            · exact absurd h hmis.2.2
        · rw [if_neg hmis]
          have hal : alignedOffset (tgt.1 - sq.1) (tgt.2 - sq.2) := by
            unfold alignedOffset
            by_contra hc
            push_neg at hc
            exact hmis ⟨hc.1, hc.2.1, hc.2.2⟩
          have e1 : ((max (tgt.1 - sq.1).natAbs (tgt.2 - sq.2).natAbs : Nat) : Int)
              * dirOf (tgt.1 - sq.1) = tgt.1 - sq.1 := aligned_component _ _ hal
          have e2 : ((max (tgt.1 - sq.1).natAbs (tgt.2 - sq.2).natAbs : Nat) : Int)
              * dirOf (tgt.2 - sq.2) = tgt.2 - sq.2 := by
            rw [max_comm]
            refine aligned_component _ _ ?_
            unfold alignedOffset at hal
            tauto
          have hn1 : 1 ≤ max (tgt.1 - sq.1).natAbs (tgt.2 - sq.2).natAbs := by
            rcases not_and_or.mp h0 with h | h <;> omega
          have hn7 : max (tgt.1 - sq.1).natAbs (tgt.2 - sq.2).natAbs ≤ 7 := by
            have hsq' := hsq
            have htv' := htv
            unfold validPos at hsq' htv'
            obtain ⟨a1, a2, a3, a4⟩ := hsq'
            obtain ⟨b1, b2, b3, b4⟩ := htv'
            omega
          have hw := slidingWalk_char b sq tgt
              (dirOf (tgt.1 - sq.1)) (dirOf (tgt.2 - sq.2))
              (max (tgt.1 - sq.1).natAbs (tgt.2 - sq.2).natAbs)
              (dirOf_cases _) (dirOf_cases _)
              (fun hc => h0 ⟨(dirOf_eq_zero _).mp hc.1, (dirOf_eq_zero _).mp hc.2⟩)
              (by rw [e1]; ring) (by rw [e2]; ring)
              hsq htv 32 1 le_rfl hn1 (by omega)
          have c1 : sq.1 + dirOf (tgt.1 - sq.1)
              = sq.1 + ((1 : Nat) : Int) * dirOf (tgt.1 - sq.1) := by push_cast; ring
          have c2 : sq.2 + dirOf (tgt.2 - sq.2)
              = sq.2 + ((1 : Nat) : Int) * dirOf (tgt.2 - sq.2) := by push_cast; ring
          rw [c1, c2, hw]
          constructor
          · intro hall
            refine ⟨hdir, hal, ?_⟩
            intro q hq
            unfold betweenSquares at hq
            rw [List.mem_map] at hq
            obtain ⟨i, hi, rfl⟩ := hq
            rw [List.mem_range] at hi
            have hres := hall (i + 1) (by omega) (by omega)
            have ec1 : sq.1 + ((i : Int) + 1) * dirOf (tgt.1 - sq.1)
                = sq.1 + ((i + 1 : Nat) : Int) * dirOf (tgt.1 - sq.1) := by
              push_cast; ring
            have ec2 : sq.2 + ((i : Int) + 1) * dirOf (tgt.2 - sq.2)
                = sq.2 + ((i + 1 : Nat) : Int) * dirOf (tgt.2 - sq.2) := by
              push_cast; ring
            rw [ec1, ec2]
            exact hres
          · intro hspec
            unfold specSlidingAttack at hspec
            obtain ⟨-, -, hbet⟩ := hspec
            intro j hj1 hj2
            refine hbet _ ?_
            unfold betweenSquares
            rw [List.mem_map]
            refine ⟨j - 1, ?_, ?_⟩
            · rw [List.mem_range]; omega
            · have ej : (((j - 1 : Nat)) : Int) + 1 = (j : Int) := by omega
              rw [ej]
      · rw [if_neg hdir]
        constructor
        · intro h; cases h
        · intro hspec
          unfold specSlidingAttack at hspec
          exact absurd hspec.1 hdir
  · intro c
    simp only [isInCheckFrom]
    rw [List.any_eq_true]
    constructor
    · rintro ⟨s, hs, hx⟩
      cases hq : b.squares s with
      | none => rw [hq] at hx; cases hx
      | some q =>
          rw [hq] at hx
          have hx' : (decide (q.color = c) && pieceAttacks b s q tgt) = true := hx
          rw [Bool.and_eq_true, decide_eq_true_iff] at hx'
          exact ⟨s, hs, q, hq, hx'.1, hx'.2⟩
    · rintro ⟨s, hs, q, hq, hc, ha⟩
      refine ⟨s, hs, ?_⟩
      rw [hq]
      show (decide (q.color = c) && pieceAttacks b s q tgt) = true
      rw [Bool.and_eq_true, decide_eq_true_iff]
      exact ⟨hc, ha⟩

/-- Witness for C6: a light rook on a1 and the target a3 on a board where
a2 is empty (a light pawn sits on a4); all hypotheses hold by computation. -/
theorem c6_witness :
    validPos ((97 : Int), (1 : Int)) ∧ validPos ((97 : Int), (3 : Int)) ∧
    (pc .rook .light).isSlidingPiece = true ∧
    ((pieceAttacks (mkBoard [(((97 : Int), (1 : Int)), pc .rook .light),
          (((97 : Int), (4 : Int)), pc .pawn .light)] .light)
        ((97 : Int), (1 : Int)) (pc .rook .light) ((97 : Int), (3 : Int)) = true ↔
      specSlidingAttack (mkBoard [(((97 : Int), (1 : Int)), pc .rook .light),
          (((97 : Int), (4 : Int)), pc .pawn .light)] .light)
        ((97 : Int), (1 : Int)) ((97 : Int), (3 : Int)) (pc .rook .light)) ∧
    (∀ c, isInCheckFrom (mkBoard [(((97 : Int), (1 : Int)), pc .rook .light),
          (((97 : Int), (4 : Int)), pc .pawn .light)] .light)
        ((97 : Int), (3 : Int)) c = true ↔
      ∃ s ∈ squaresList, ∃ q,
        (mkBoard [(((97 : Int), (1 : Int)), pc .rook .light),
          (((97 : Int), (4 : Int)), pc .pawn .light)] .light).squares s = some q ∧
        q.color = c ∧
        pieceAttacks (mkBoard [(((97 : Int), (1 : Int)), pc .rook .light),
          (((97 : Int), (4 : Int)), pc .pawn .light)] .light) s q
          ((97 : Int), (3 : Int)) = true)) :=
  ⟨by decide, by decide, by decide,
    c6_sliding_attack_spec _ _ _ _ (by decide) (by decide) (by decide)⟩

/-- C7 counterexample: on the source's own extended-notation demo position
(light pawn f4, dark pawn g5, light to move), the long-notation move
`'f4xg5'` converts to `'fxg5'`, but converting back yields `'f4g5'`, not
`'f4xg5'`: the round trip is not the identity on long notation. -/
theorem c7_counterexample :
    longToAlgebraic c7Board ['f', '4', 'x', 'g', '5'] = .ok ['f', 'x', 'g', '5'] ∧
    algebraicToLong c7Board ['f', 'x', 'g', '5'] = .ok ['f', '4', 'g', '5'] ∧
    (['f', '4', 'g', '5'] : List Char) ≠ ['f', '4', 'x', 'g', '5'] := by
  exact ⟨by decide, by decide, by decide⟩

/-- C7 (amended): for a non-castling move that is unambiguous in the
position, the conversion round trip returns the cleaned four-character
origin-destination form, not necessarily the original string.  Precisely:
if `long_to_algebraic` parses the input `x` into origin `f` and
destination `t` and succeeds with output `out`, the origin square holds a
piece `p`, the castling shortcut does not fire, and the source scan of
`algebraic_to_long` finds exactly the origin square (the claim's
"unambiguous" proviso), then `algebraic_to_long out = f ++ t` — which
equals `x` only when `x` was already in canonical lower-case
four-character form (e.g. `'f4xg5'` comes back as `'f4g5'`). -/
theorem c7_round_trip (b : Board) (x f t out : List Char) (p : Piece)
    (hparse : parseLong x = .ok (f, t))
    (hlta : longToAlgebraic b x = .ok out)
    (hp : b.squares (strToPos f) = some p)
    (hcast : (if p.kind = PKind.king then checkCastlingStr f t else none) = none)
    (hu : sourceCandidates b p.kind t = .ok [strToPos f]) :
    algebraicToLong b out = .ok (f ++ t) := by
  have hb : buildAlgebraic b f t = .ok out := by
    unfold longToAlgebraic at hlta
    rw [hparse] at hlta
    exact hlta
  obtain ⟨hsf, hst, d, cap, hd, hout⟩ := buildAlgebraic_ok b f t out p hp hcast hb
  obtain ⟨c1, c2, hteq, htv, ht1, ht2, ht3, ht4⟩ := strIsSquare_shape t hst
  have hfv : validPos (strToPos f) := (strIsSquare_shape f hsf).choose_spec.choose_spec.2.1
  have hdchars : ∀ c ∈ d, sqChar c :=
    disamb_chars b p (strToPos f) (strToPos t) cap d hfv hd
  have hsymfacts : ∀ c ∈ symbolOf p.kind, c ≠ 'x' ∧ c ≠ '+' ∧ c ≠ '#' := by
    intro c hc
    cases hk : p.kind <;> rw [hk] at hc <;> simp [symbolOf] at hc <;>
      (subst hc; exact ⟨by decide, by decide, by decide⟩)
  have htf1 : c1 ≠ 'x' ∧ c1 ≠ '+' ∧ c1 ≠ '#' := sqChar_facts c1 (Or.inr ⟨ht1, ht2⟩)
  have htf2 : c2 ≠ 'x' ∧ c2 ≠ '+' ∧ c2 ≠ '#' := sqChar_facts c2 (Or.inl ⟨ht3, ht4⟩)
  have hdfacts : ∀ c ∈ d, c ≠ 'x' ∧ c ≠ '+' ∧ c ≠ '#' :=
    fun c hc => sqChar_facts c (hdchars c hc)
  subst hout
  subst hteq
  have hx2 : 'x' ∉ [c1, c2] := by
    intro hm
    rcases List.mem_cons.mp hm with e | hm2
    · exact htf1.1 e.symm
    · rcases List.mem_cons.mp hm2 with e | hm3
      · exact htf2.1 e.symm
      · simp at hm3
  have hx1 : 'x' ∉ symbolOf p.kind ++ d := by
    intro hm
    rcases List.mem_append.mp hm with hs | hdm
    · exact (hsymfacts _ hs).1 rfl
    · exact (hdfacts _ hdm).1 rfl
  have hmem_flat : ∀ a : Char,
      a ∈ (symbolOf p.kind ++ d) ++ (if cap = true then ['x'] else []) ++ [c1, c2] →
      a ∈ symbolOf p.kind ∨ a ∈ d ∨ a ∈ (if cap = true then ['x'] else []) ∨
        a = c1 ∨ a = c2 := by
    intro a ha
    simp only [List.mem_append, List.mem_cons, List.not_mem_nil, or_false] at ha
    tauto
  have hall : ∀ a ∈ (symbolOf p.kind ++ d) ++ (if cap = true then ['x'] else []) ++ [c1, c2],
      a ≠ '+' ∧ a ≠ '#' := by
    intro a ha
    rcases hmem_flat a ha with hs | hdm | hcap | h1 | h2
    · exact ⟨(hsymfacts a hs).2.1, (hsymfacts a hs).2.2⟩
    · exact ⟨(hdfacts a hdm).2.1, (hdfacts a hdm).2.2⟩
    · rcases Bool.eq_false_or_eq_true cap with hcv | hcv <;> rw [hcv] at hcap
      · simp at hcap
        subst hcap
        exact ⟨by decide, by decide⟩
      · simp at hcap
    · subst h1
      exact ⟨htf1.2.1, htf1.2.2⟩
    · subst h2
      exact ⟨htf2.2.1, htf2.2.2⟩
  have hparts := algParts_build (symbolOf p.kind ++ d) [c1, c2] cap hx1 hx2 rfl hall
  have hpt : pieceTypeOf (symbolOf p.kind ++ d) = .ok p.kind := by
    cases hk : p.kind with
    | pawn =>
        have hdv := pawn_disamb b p (strToPos f) (strToPos [c1, c2]) cap d hk hd
        have hfv' := hfv
        unfold validPos at hfv'
        obtain ⟨v1, v2, v3, v4⟩ := hfv'
        rcases Bool.eq_false_or_eq_true cap with hcv | hcv <;> rw [hcv] at hdv <;>
          simp at hdv <;> subst hdv
        · show pieceTypeOf ([] ++ [Char.ofNat (strToPos f).1.toNat]) = .ok PKind.pawn
          rw [List.nil_append]
          simp only [pieceTypeOf]
          rw [if_pos (file_char_facts (strToPos f).1 v1 v2).2]
        · rfl
    | rook =>
        show pieceTypeOf ('R' :: d) = .ok PKind.rook
        simp only [pieceTypeOf]
        rw [if_neg (by decide)]
        decide
    | knight =>
        show pieceTypeOf ('N' :: d) = .ok PKind.knight
        simp only [pieceTypeOf]
        rw [if_neg (by decide)]
        decide
    | bishop =>
        show pieceTypeOf ('B' :: d) = .ok PKind.bishop
        simp only [pieceTypeOf]
        rw [if_neg (by decide)]
        decide
    | queen =>
        show pieceTypeOf ('Q' :: d) = .ok PKind.queen
        simp only [pieceTypeOf]
        rw [if_neg (by decide)]
        decide
    | king =>
        show pieceTypeOf ('K' :: d) = .ok PKind.king
        simp only [pieceTypeOf]
        rw [if_neg (by decide)]
        decide
  have hfss : findSourceSquare b p.kind (symbolOf p.kind ++ d) [c1, c2] = .ok f := by
    unfold findSourceSquare
    rw [hu]
    show Except.ok (posToStr (strToPos f)) = Except.ok f
    rw [posToStr_strToPos f hsf]
  have hget : ((symbolOf p.kind ++ d) ++ (if cap = true then ['x'] else []) ++ [c1, c2]).getLast?
      = some c2 := by
    have hre : (symbolOf p.kind ++ d) ++ (if cap = true then ['x'] else []) ++ [c1, c2]
        = ((symbolOf p.kind ++ d) ++ (if cap = true then ['x'] else []) ++ [c1]) ++ [c2] := by
      simp
    rw [hre, List.getLast?_concat]
  have hnc1 : ¬((symbolOf p.kind ++ d) ++ (if cap = true then ['x'] else []) ++ [c1, c2]
        = ['O', '-', 'O'] ∨
      (symbolOf p.kind ++ d) ++ (if cap = true then ['x'] else []) ++ [c1, c2]
        = ['0', '-', '0']) := by
    rintro (he | he) <;> rw [he] at hget
    · have h2 : ('O' : Char) = c2 := Option.some.inj (by rw [← hget]; decide)
      rw [← h2] at ht4
      exact absurd ht4 (by decide)
    · have h2 : ('0' : Char) = c2 := Option.some.inj (by rw [← hget]; decide)
      rw [← h2] at ht3
      exact absurd ht3 (by decide)
  have hnc2 : ¬((symbolOf p.kind ++ d) ++ (if cap = true then ['x'] else []) ++ [c1, c2]
        = ['O', '-', 'O', '-', 'O'] ∨
      (symbolOf p.kind ++ d) ++ (if cap = true then ['x'] else []) ++ [c1, c2]
        = ['0', '-', '0', '-', '0']) := by
    rintro (he | he) <;> rw [he] at hget
    · have h2 : ('O' : Char) = c2 := Option.some.inj (by rw [← hget]; decide)
      rw [← h2] at ht4
      exact absurd ht4 (by decide)
    · have h2 : ('0' : Char) = c2 := Option.some.inj (by rw [← hget]; decide)
      rw [← h2] at ht3
      exact absurd ht3 (by decide)
  have hassoc : symbolOf p.kind ++ d ++ (if cap = true then ['x'] else []) ++ [c1, c2]
      = (symbolOf p.kind ++ d) ++ (if cap = true then ['x'] else []) ++ [c1, c2] := by
    simp
  rw [hassoc]
  unfold algebraicToLong
  rw [if_neg hnc1, if_neg hnc2]
  simp only [hparts, hpt, hfss]

/-- Witness for C7 on the demo position: `'f4xg5'` parses into `f4`/`g5`,
converts to `'fxg5'`, the origin holds a light pawn, the castling shortcut
is off, the source scan finds exactly f4, and the round trip lands on
`'f4g5'`. -/
theorem c7_witness :
    parseLong ['f', '4', 'x', 'g', '5'] = .ok (['f', '4'], ['g', '5']) ∧
    longToAlgebraic c7Board ['f', '4', 'x', 'g', '5'] = .ok ['f', 'x', 'g', '5'] ∧
    c7Board.squares (strToPos ['f', '4']) = some (pc .pawn .light) ∧
    (if (pc .pawn .light).kind = PKind.king then
        checkCastlingStr ['f', '4'] ['g', '5'] else none) = none ∧
    sourceCandidates c7Board (pc .pawn .light).kind ['g', '5']
      = .ok [strToPos ['f', '4']] ∧
    algebraicToLong c7Board ['f', 'x', 'g', '5'] = .ok (['f', '4'] ++ ['g', '5']) :=
  ⟨by decide, by decide, by decide, by decide, by decide,
    c7_round_trip c7Board ['f', '4', 'x', 'g', '5'] ['f', '4'] ['g', '5']
      ['f', 'x', 'g', '5'] (pc .pawn .light)
      (by decide) (by decide) (by decide) (by decide) (by decide)⟩

end Theorems

end Chess
